import Mathlib

/-!
# Verification of `SAT_cnf.py` (repository `ihalseide/satisfiable`)

Shallow embedding of the core of `SAT_cnf.py` in Lean 4, with theorems
settling the specification claims about it.

Modelling conventions (used consistently below):

* Python's literal polarity constants `POS_LIT = 1` / `NEG_LIT = 0` are the
  only polarity values ever stored in a clause (they are produced solely by
  `make_CNF_dict`), so polarity is modelled as `Bool` with `true ↔ POS_LIT`
  and `false ↔ NEG_LIT`.
* A Python `dict` is modelled as an insertion-ordered association list.
  A clause's `data : dict[int, int]` becomes `List (Nat × Bool)`;
  an assignment `dict[int, int|None]` (values `None`/`0`/`1`) becomes
  `List (Nat × Option Bool)` with `none ↔ None`, `some false ↔ 0`,
  `some true ↔ 1`.
* Python functions that mutate their arguments in place are modelled as
  functions returning the new value of every object they mutate.
* Reading a missing key of an assignment dict raises `KeyError` in Python;
  the model's lookup returns `none` there.  Theorems carry coverage
  hypotheses keeping all statements inside the region where the Python code
  does not raise, so the distinction is never exercised.
* Loops and recursions are modelled with an explicit structural fuel
  parameter (so that the kernel can evaluate them on concrete inputs); with
  fuel at least the stated bounds the model performs exactly the same steps
  as the Python loops/recursion, and exhausted fuel yields the UNSAT
  sentinel `[]`.
* `random.choice(seq)` picks `seq[i]` for some index `i`; the random stream
  is modelled by an oracle `σ : Nat → Nat` together with a counter threaded
  through the search, each decision `k` selecting index `σ k % len`.
  Quantifying over all `σ` covers every possible sequence of random choices.
-/

/-- Clause/function result values (`SAT`, `UNSAT`, `UNDECIDED` strings in the
source). -/
inductive ClauseStatus where
  | SAT : ClauseStatus
  | UNSAT : ClauseStatus
  | UNDECIDED : ClauseStatus
deriving DecidableEq, Repr

open ClauseStatus

/-- `POS_LIT = 1`: positive literal, like `x1`. -/
def POS_LIT : Bool := true

/-- `NEG_LIT = 0`: negative literal, like `~x1`. -/
def NEG_LIT : Bool := false

/-- The `Clause` class: `data` maps variable index to polarity
(insertion-ordered dict), `isUnit` is the mutable unit-clause flag set by
`clause_value`.  The unused bookkeeping field `number` is omitted. -/
structure Clause where
  data : List (Nat × Bool)
  isUnit : Bool
deriving DecidableEq, Repr

/-- An assignment: ordered dict from variable index to `None`/`0`/`1`. -/
abbrev Assign := List (Nat × Option Bool)

/-- Dict read `assignments[v]` (first entry wins; Python dicts have unique
keys).  A missing key gives `none` where Python would raise `KeyError`;
theorems stay inside the covered region. -/
def assign_get (asn : Assign) (v : Nat) : Option Bool :=
  match asn.find? (fun e => e.1 == v) with
  | some e => e.2
  | none => none

/-- Dict write `assignments[v] = b` for a key already present (the only kind
of assignment write the search engine performs); the entry keeps its
position, as in Python. -/
def assign_set (asn : Assign) (v : Nat) (b : Option Bool) : Assign :=
  asn.map (fun e => if e.1 = v then (e.1, b) else e)

/-- Membership test `v in clause.data`. -/
def data_mem (d : List (Nat × Bool)) (v : Nat) : Bool :=
  d.any (fun vp => vp.1 == v)

/-- Dict read `clause.data[v]` (unique keys; defaults on a missing key,
which the source never exercises). -/
def data_get (d : List (Nat × Bool)) (v : Nat) : Bool :=
  match d.find? (fun vp => vp.1 == v) with
  | some vp => vp.2
  | none => false

/-- `make_CNF_dict(ones, zeros)`: build the clause dict.  The first loop
inserts every variable of `ones` with `POS_LIT`, the second overwrites with
`NEG_LIT` for every variable of `zeros`; so a variable in both ends up
`NEG_LIT` (the contradiction check in the source is commented out).
Python iterates over `set(ones)`/`set(zeros)`; entry order is irrelevant to
every result proved below, so the model keeps first-occurrence order. -/
def make_CNF_dict (ones zeros : List Nat) : List (Nat × Bool) :=
  (ones.dedup.map (fun v => (v, !(zeros.contains v)))) ++
    ((zeros.dedup.filter (fun v => !(ones.contains v))).map (fun v => (v, false)))

/-- `make_CNF_clause(ones, zeros)`: a fresh clause (`isUnit` initialised to
`False` by `Clause.__init__`). -/
def make_CNF_clause (ones zeros : List Nat) : Clause :=
  ⟨make_CNF_dict ones zeros, false⟩

/-! ## SOP parser (`parse_SOP_string`) -/

/-- The character class `[ \r\n.~+x0-9]` with `re.IGNORECASE` (which also
admits `X`). -/
def allowed_char (c : Char) : Bool :=
  c == ' ' || c == '\r' || c == '\n' || c == '.' || c == '~' || c == '+' ||
    c == 'x' || c == 'X' || c.isDigit

/-- Value of a digit string, as Python's `int()` (leading zeros allowed). -/
def nat_of_digits (ds : List Char) : Nat :=
  ds.foldl (fun acc c => 10 * acc + (c.toNat - '0'.toNat)) 0

/-- Match ` *[xX][0-9]+` at the head of `s`: spaces, then `x`/`X`
(IGNORECASE), then at least one digit (greedy).  Returns the variable index
and the unconsumed rest.  (The placeholder head `'z'` is only read when the
remainder is empty, in which case the condition is false anyway.) -/
def match_var (s : List Char) : Option (Nat × List Char) :=
  if ((s.dropWhile (fun c => c == ' ')).headD 'z' == 'x'
        || (s.dropWhile (fun c => c == ' ')).headD 'z' == 'X')
      && !((s.dropWhile (fun c => c == ' ')).tail.takeWhile Char.isDigit).isEmpty then
    some (nat_of_digits ((s.dropWhile (fun c => c == ' ')).tail.takeWhile Char.isDigit),
          (s.dropWhile (fun c => c == ' ')).tail.dropWhile Char.isDigit)
  else none

/-- Match the literal pattern `(~?) *x([0-9]+)` at the head of `s`
(the regex `~?` commits to a leading `~` when present, since a failed
remainder cannot match after backtracking either).  Returns the captured
groups (inversion flag, variable index) and the unconsumed rest. -/
def match_literal (s : List Char) : Option (Bool × Nat × List Char) :=
  if s.head? = some '~' then
    (match_var s.tail).map (fun nr => (true, nr.1, nr.2))
  else
    (match_var s).map (fun nr => (false, nr.1, nr.2))

/-- Worker for `scan_literals`; the fuel only bounds the number of steps and
`s.length` is always enough, since every step consumes at least one
character. -/
def scan_literals_go (fuel : Nat) (s : List Char) : List (Bool × Nat) :=
  match fuel with
  | 0 => []
  | fuel + 1 =>
    match s with
    | [] => []
    | c :: r =>
      match match_literal (c :: r) with
      | some (neg, n, rest) => (neg, n) :: scan_literals_go fuel rest
      | none => scan_literals_go fuel r

/-- The scan performed by `re.findall` with the literal pattern: try a match
at every position, left to right; a match consumes its text, a failure
advances one character. -/
def scan_literals (s : List Char) : List (Bool × Nat) :=
  scan_literals_go s.length s

/-- Python `text.split('+')`. -/
def split_plus (s : List Char) : List (List Char) :=
  s.foldr
    (fun c acc =>
      if c = '+' then [] :: acc
      else
        match acc with
        | h :: t => (c :: h) :: t
        | [] => [[c]])
    [[]]

/-- `parse_SOP_string(text)`: reject (raise `ValueError`, modelled as `none`)
unless the regex `^([ \r\n.~+x0-9])+$` matches, i.e. unless the text is
nonempty and made only of allowed characters; then split the text on `+`
into product terms and build one (DNF) clause per term from the literals
found in it, positives first as in the source. -/
def parse_SOP_string (text : List Char) : Option (List Clause) :=
  if text ≠ [] ∧ text.all allowed_char then
    some ((split_plus text).map (fun term =>
      let literals := scan_literals term
      let positives := (literals.filter (fun l => !l.1)).map (fun l => l.2)
      let negatives := (literals.filter (fun l => l.1)).map (fun l => l.2)
      make_CNF_clause positives negatives))
  else none

/-! ## GCF encoder (`convert_SOP_to_CNF`) -/

/-- `find_maximum_literal(clauses)`: maximum variable index over all clause
dicts.  Python's `max` raises on an empty list or an empty clause; the model
returns 0 there and theorems carry nonemptiness hypotheses. -/
def find_maximum_literal (clauses : List Clause) : Nat :=
  (clauses.map (fun c => (c.data.map Prod.fst).foldr max 0)).foldr max 0

/-- `add_GCF_for_and(toList, term, term_out_var_i)`: clauses appended for the
AND-gate consistency function of one product term with output variable `z`
(the model returns the appended block). -/
def add_GCF_for_and (term : List (Nat × Bool)) (z : Nat) : List Clause :=
  (term.map (fun vp =>
    if vp.2 = POS_LIT then make_CNF_clause [vp.1] [z]
    else make_CNF_clause [] [z, vp.1])) ++
  [make_CNF_clause
    (((term.filter (fun vp => vp.2 = NEG_LIT)).map Prod.fst) ++ [z])
    ((term.filter (fun vp => vp.2 = POS_LIT)).map Prod.fst)]

/-- `add_GCF_for_or(toList, or_input_vars, output_var)`: clauses appended for
the OR-gate consistency function (the model returns the appended block). -/
def add_GCF_for_or (or_input_vars : List Nat) (output_var : Nat) : List Clause :=
  (or_input_vars.map (fun v => make_CNF_clause [output_var] [v])) ++
  [make_CNF_clause or_input_vars [output_var]]

/-- `convert_SOP_to_CNF(productTerms)`: Tseitin/GCF encoding.  One fresh
variable per product term starting at `max_var_i + 1`, a final OR output
variable `1 + max_var_i + len(productTerms)`, and a final unit clause
asserting the output variable. -/
def convert_SOP_to_CNF (productTerms : List Clause) : List Clause :=
  ((productTerms.enum.map
      (fun it => add_GCF_for_and it.2.data (find_maximum_literal productTerms + 1 + it.1))).flatten) ++
    add_GCF_for_or
      (List.range' (find_maximum_literal productTerms + 1) productTerms.length)
      (1 + find_maximum_literal productTerms + productTerms.length) ++
    [make_CNF_clause [1 + find_maximum_literal productTerms + productTerms.length] []]

/-- The `ClauseList` class: SOP clauses, their CNF encoding, and the derived
indices computed by `__init__`.  Construction parses the SOP input, which can
raise, so it is modelled as `Option`-returning (`mk_ClauseList`). -/
structure ClauseListT where
  sop_clauses : List Clause
  cnf_clauses : List Clause
  input_max : Nat
  max_index_sop : Nat
  max_cnf_index : Nat
deriving DecidableEq, Repr

/-- `ClauseList(sop_input)`. -/
def mk_ClauseList (sop_input : List Char) : Option ClauseListT :=
  (parse_SOP_string sop_input).map (fun sop =>
    { sop_clauses := sop
      cnf_clauses := convert_SOP_to_CNF sop
      input_max := find_maximum_literal sop
      max_index_sop :=
        (sop.takeWhile
          (fun c => !((c.data.map Prod.fst).foldr max 0 == find_maximum_literal sop))).length
      max_cnf_index := (convert_SOP_to_CNF sop).length - 1 })

/-! ## Clause evaluator (`values_of_literals`, `clause_value`) -/

/-- `values_of_literals(clause, assignments)`: effective value of every
literal of the clause (the complement of the assigned value for a negative
literal, the assigned value itself otherwise; an unassigned literal stays
`None` in both cases).  The source returns a dict keyed by the literal; only
its values are consumed, and clause dicts have unique keys, so the model
returns the list of values in clause order. -/
def values_of_literals (c : Clause) (asn : Assign) : List (Option Bool) :=
  c.data.map (fun vp =>
    if vp.2 = NEG_LIT then (assign_get asn vp.1).map (fun b => !b)
    else assign_get asn vp.1)

/-- The counting loop of `clause_value`: count literals whose effective value
is `0`, returning `none` if a literal with value `1` is found (the early
`return SAT`). -/
def clause_value_count (vals : List (Option Bool)) (acc : Nat) : Option Nat :=
  match vals with
  | [] => some acc
  | v :: rest =>
    if v = some false then clause_value_count rest (acc + 1)
    else if v = some true then none
    else clause_value_count rest acc

/-- `clause_value(clause, assignments)`: `SAT` if some literal evaluates
true, `UNSAT` if every literal is assigned and false, `UNDECIDED`
otherwise. -/
def clause_value (c : Clause) (asn : Assign) : ClauseStatus :=
  match clause_value_count (values_of_literals c asn) 0 with
  | none => SAT
  | some countFalse =>
    if countFalse = c.data.length then UNSAT else UNDECIDED

/-- The side effect of `clause_value` on `clause.isUnit`: the flag is set
(never cleared) when exactly one literal is unassigned and every other
literal is false; this returns the flag's value after the call. -/
def clause_unit_flag (c : Clause) (asn : Assign) : Bool :=
  c.isUnit ||
    (match clause_value_count (values_of_literals c asn) 0 with
     | none => false
     | some countFalse => countFalse + 1 == c.data.length)

/-! ## Unit propagation (`unit_propagate`) -/

/-- Striking pass of `unit_propagate`: after the literal `lit` was assigned
the value satisfying polarity `pol`, remove the complementary literal
`(lit, !pol)` from every clause that contains it. -/
def strike_complement (lit : Nat) (pol : Bool) (cs : List Clause) : List Clause :=
  cs.map (fun c => ⟨c.data.filter (fun vp => !(vp.1 == lit && vp.2 == !pol)), c.isUnit⟩)

/-- One scan position of the `unit_propagate` while-loop, as a step
function; see `unit_propagate_go`. -/
def unit_propagate_step (cs : List Clause) (asn : Assign) (i : Nat) :
    List Clause × Assign × Nat :=
  match cs.get? i with
  | none => (cs, asn, i + 1)
  | some c =>
    if c.isUnit then
      match asn.find? (fun e => e.2 == none && data_mem c.data e.1) with
      | some e =>
        let lit := e.1
        let pol := data_get c.data lit
        let asn' := assign_set asn lit (some pol)
        let cs' := strike_complement lit pol (cs.eraseIdx i)
        (cs', asn', i)
      | none => (cs, asn, i + 1)
    else (cs, asn, i + 1)

/-- The `while i < len(clauses)` loop of `unit_propagate`.  Every iteration
either advances `i` or shortens the list, so `cs.length` iterations always
suffice and the fuel `cs.length` given by `unit_propagate` is exact. -/
def unit_propagate_go (fuel : Nat) (cs : List Clause) (asn : Assign) (i : Nat) :
    List Clause × Assign :=
  match fuel with
  | 0 => (cs, asn)
  | fuel + 1 =>
    if i < cs.length then
      let (cs', asn', i') := unit_propagate_step cs asn i
      unit_propagate_go fuel cs' asn' i'
    else (cs, asn)

/-- `unit_propagate(clauses, assignments)`: process every clause flagged
`isUnit` in one forward pass; assign its first unassigned literal the
polarity value satisfying it, delete the clause, and strike the
complementary literal from the remaining clauses.  Returns the mutated
clause list together with the assignments. -/
def unit_propagate (cs : List Clause) (asn : Assign) : List Clause × Assign :=
  unit_propagate_go cs.length cs asn 0

/-! ## Decision heuristic and DPLL search -/

/-- `decide_literal(clauses, decisions)`: `None` if every variable is
assigned, otherwise a random unassigned variable; `random.choice` is modelled
by the oracle index `r` (reduced mod the list length). -/
def decide_literal (r : Nat) (decisions : Assign) : Option Nat :=
  if ((decisions.filter (fun e => e.2 == none)).map Prod.fst).isEmpty then none
  else some (((decisions.filter (fun e => e.2 == none)).map Prod.fst).getD
    (r % ((decisions.filter (fun e => e.2 == none)).map Prod.fst).length) 0)

/-- `all_undecided(clauses)`: every variable in `1..maxVar` mapped to
`None` (empty when there are no clauses). -/
def all_undecided (cs : List Clause) : Assign :=
  if cs.isEmpty then []
  else (List.range' 1 (find_maximum_literal cs)).map (fun i => (i, none))

/-- Outcome of the clause-evaluation `for` loop inside `dpll_rec`. -/
inductive EvalOutcome where
  | unsat : EvalOutcome
  | allsat : EvalOutcome
  | undecided : EvalOutcome
deriving DecidableEq, Repr

/-- The evaluation loop of `dpll_rec` over the snapshot `original_clauses`
(first argument), threading the live clause list and the assignments through
the `unit_propagate` calls triggered by snapshot clauses whose `isUnit` flag
is set by `clause_value` (or was already set on the copied clause). -/
def dpll_rec_eval (snapshot : List Clause) (cs : List Clause) (asn : Assign)
    (anyUndec : Bool) : EvalOutcome × List Clause × Assign :=
  match snapshot with
  | [] => (if anyUndec then .undecided else .allsat, cs, asn)
  | c :: rest =>
    match clause_value c asn with
    | UNSAT => (.unsat, cs, asn)
    | UNDECIDED =>
      if clause_unit_flag c asn then
        let (cs', asn') := unit_propagate cs asn
        dpll_rec_eval rest cs' asn' true
      else dpll_rec_eval rest cs asn true
    | SAT => dpll_rec_eval rest cs asn anyUndec

/-- `dpll_rec(clauses, assignments)`: the recursive DPLL search.  Returns
`(result, clauses, assignments, counter)`: the Python return value plus the
final value of the two mutated arguments and of the random counter.  The
result is the satisfying assignment dict, `[]` for UNSAT.  Fuel bounds the
recursion depth; `maxVar + 1` always suffices because every recursive call
has strictly fewer unassigned variables. -/
def dpll_rec (σ : Nat → Nat) (fuel : Nat) (cs : List Clause) (asn0 : Assign)
    (k : Nat) : Assign × List Clause × Assign × Nat :=
  match fuel with
  | 0 => ([], cs, if asn0.isEmpty then all_undecided cs else asn0, k)
  | fuel + 1 =>
    -- `if not assignments: assignments = all_undecided(clauses)`
    let asn := if asn0.isEmpty then all_undecided cs else asn0
    -- `if not clauses: return assignments`
    if cs.isEmpty then (asn, cs, asn, k)
    else
      match dpll_rec_eval cs cs asn false with
      | (.unsat, cs1, asn1) => ([], cs1, asn1, k)
      | (.allsat, cs1, asn1) => (asn1, cs1, asn1, k)
      | (.undecided, cs1, asn1) =>
        match decide_literal (σ k) asn1 with
        | none => ([], cs1, asn1, k + 1)
        | some xi =>
          if xi = 0 then ([], cs1, asn1, k + 1)  -- `if not xi` is also true for 0
          else
            let asn2 := assign_set asn1 xi (some true)
            match dpll_rec σ fuel cs1 asn2 (k + 1) with
            | (r1, cs2, asn3, k1) =>
              if !r1.isEmpty then (r1, cs2, asn3, k1)
              else
                let asn4 := assign_set asn3 xi (some false)
                match dpll_rec σ fuel cs2 asn4 k1 with
                | (r2, cs3, asn5, k2) =>
                  if !r2.isEmpty then (r2, cs3, asn5, k2)
                  else ([], cs3, assign_set asn5 xi none, k2)

/-- Entry point `dpll_rec(clauses)` with the default `assignments=None`. -/
def dpll_rec_entry (σ : Nat → Nat) (fuel : Nat) (cs : List Clause) : Assign :=
  (dpll_rec σ fuel cs [] 0).1

/-- The clause scan of one `dpll_iterative` loop iteration: whether some
clause is UNSAT (the loop breaks there) and whether some clause before it is
UNDECIDED. -/
def dpll_iter_scan (cs : List Clause) (asn : Assign) (acc : Bool) : Bool × Bool :=
  match cs with
  | [] => (false, acc)
  | c :: rest =>
    match clause_value c asn with
    | UNSAT => (true, acc)
    | UNDECIDED => dpll_iter_scan rest asn true
    | SAT => dpll_iter_scan rest asn acc
  -- (`clause_value` also sets `isUnit` flags on the original clauses here;
  -- `dpll_iterative` never reads them, so they are not threaded.)

/-- The `while stack` loop of `dpll_iterative`.  Each stack entry is a full
assignment snapshot.  Fuel bounds the number of iterations;
`2 * 3 ^ maxVar` always suffices (see `dpll_iterative`). -/
def dpll_iterative_go (σ : Nat → Nat) (fuel : Nat) (cs : List Clause)
    (stack : List Assign) (k : Nat) : Assign :=
  match fuel with
  | 0 => []
  | fuel + 1 =>
    match stack with
    | [] => []  -- UNSAT due to no more possible assignments on the stack
    | cur :: rest =>
      match dpll_iter_scan cs cur false with
      | (true, _) => dpll_iterative_go σ fuel cs rest k  -- an UNSAT clause: next branch
      | (false, false) => cur  -- no UNSAT, none undecided: SAT
      | (false, true) =>
        match decide_literal (σ k) cur with
        | none => []  -- no undecided literal left: return UNSAT
        | some xi =>
          if xi = 0 then []  -- `if not xi` is also true for 0
          else
            dpll_iterative_go σ fuel cs
              (assign_set cur xi (some false) :: assign_set cur xi (some true) :: rest)
              (k + 1)

/-- `dpll_iterative(clauses)`: explicit-stack DPLL.  The initial decision
variable is branched both ways up front; the `xi = 0` branch is pushed last,
hence explored first.  The Python `assert(starting_xi)` failure (impossible
for well-formed input) is modelled as the UNSAT sentinel. -/
def dpll_iterative (σ : Nat → Nat) (fuel : Nat) (cs : List Clause) : Assign :=
  if cs.isEmpty then []
  else
    let asn1 := all_undecided cs
    match decide_literal (σ 0) asn1 with
    | none => []
    | some xi =>
      if xi = 0 then []
      else
        dpll_iterative_go σ fuel cs
          [assign_set asn1 xi (some false), assign_set asn1 xi (some true)] 1

/-! ## Blocking, enumeration, XOR equivalence -/

/-- `make_blocking_clause(assignments)`: negate every decided literal. -/
def make_blocking_clause (asn : Assign) : Clause :=
  make_CNF_clause
    ((asn.filter (fun e => e.2 == some false)).map Prod.fst)
    ((asn.filter (fun e => e.2 == some true)).map Prod.fst)

/-- `find_all_SAT(clauses)`: solve repeatedly with `dpll_rec`, blocking each
solution, until UNSAT.  `σs j` is the random oracle of the `j`-th solver
call; the outer fuel bounds the number of solutions. -/
def find_all_SAT (σs : Nat → Nat → Nat) (solver_fuel : Nat) (fuel : Nat)
    (cs : List Clause) (j : Nat) : List Assign :=
  match fuel with
  | 0 => []
  | fuel + 1 =>
    match dpll_rec (σs j) solver_fuel cs [] 0 with
    | (solution, cs1, _, _) =>
      if solution.isEmpty then []
      else solution ::
        find_all_SAT σs solver_fuel fuel (cs1 ++ [make_blocking_clause solution]) (j + 1)

/-- `xor_CNF_functions(clauses_a, clauses_b)`: the clause list built for the
XOR of two encoded functions: GCF AND-gates for `~a.b` and `a.~b` and a GCF
OR-gate combining them.  (Note: the result contains only these gate
consistency clauses.) -/
def xor_CNF_functions (clauses_a clauses_b : ClauseListT) : List Clause :=
  let a_out := find_maximum_literal clauses_a.cnf_clauses
  let b_out := find_maximum_literal clauses_b.cnf_clauses
  let next_literal_i := 1 + max a_out b_out
  let not_a_yes_b_out := next_literal_i + 1
  let yes_a_not_b_out := next_literal_i + 2
  let or_out := next_literal_i + 3
  add_GCF_for_and (make_CNF_clause [b_out] [a_out]).data not_a_yes_b_out ++
    add_GCF_for_and (make_CNF_clause [a_out] [b_out]).data yes_a_not_b_out ++
    add_GCF_for_or [not_a_yes_b_out, yes_a_not_b_out] or_out

/-- `boolean_functions_are_equivalent(clauses1, clauses2, find_all)`: run the
search engine (or the enumeration) on the XOR combination. -/
def boolean_functions_are_equivalent (clauses1 clauses2 : ClauseListT)
    (find_all : Bool) (σs : Nat → Nat → Nat) (solver_fuel outer_fuel : Nat) :
    List Assign ⊕ Assign :=
  let clauses := xor_CNF_functions clauses1 clauses2
  if find_all then .inl (find_all_SAT σs solver_fuel outer_fuel clauses 0)
  else .inr (dpll_iterative (σs 0) solver_fuel clauses)

/-! ## Semantic (specification-side) definitions

These definitions give the standard boolean meaning of clauses and SOP
terms; they are the yardstick the claims compare the code against. -/

/-- A total assignment `A` satisfies a CNF clause: some literal of the
clause has its required polarity. -/
def clause_sat_b (A : Nat → Bool) (c : Clause) : Bool :=
  c.data.any (fun vp => A vp.1 == vp.2)

/-- A total assignment satisfies every clause of a CNF list. -/
def cnf_sat_b (A : Nat → Bool) (cs : List Clause) : Bool :=
  cs.all (clause_sat_b A)

/-- A total assignment satisfies a product term (all literals match). -/
def term_sat_b (A : Nat → Bool) (t : Clause) : Bool :=
  t.data.all (fun vp => A vp.1 == vp.2)

/-- A total assignment satisfies an SOP formula (some term holds). -/
def sop_sat_b (A : Nat → Bool) (ts : List Clause) : Bool :=
  ts.any (term_sat_b A)

/-- `A` agrees with every assigned entry of the partial assignment `asn`. -/
def agrees (A : Nat → Bool) (asn : Assign) : Prop :=
  ∀ v b, assign_get asn v = some b → A v = b

/-- A clause with exactly one unassigned literal (the spec's definition of a
unit clause), with respect to the entries of the assignment dict. -/
def semantic_unit (c : Clause) (asn : Assign) : Bool :=
  ((c.data.map Prod.fst).filter (fun v => assign_get asn v == none)).length == 1

/-- Well-formed CNF input, as produced by `make_CNF_clause` and consumed by
the search engine without raising: unique keys per clause dict, no empty
clause (`find_maximum_literal` would raise), variables at least 1. -/
def wf_cnf (cs : List Clause) : Prop :=
  ∀ c ∈ cs, (c.data.map Prod.fst).Nodup ∧ c.data ≠ [] ∧ ∀ vp ∈ c.data, 1 ≤ vp.1

instance : DecidablePred wf_cnf := fun cs => by
  unfold wf_cnf; infer_instance

/-- All `isUnit` flags are clear, as on every clause list freshly built by
`make_CNF_clause` (the only clause constructor); the flags are mutated only
on the deep copies made inside `dpll_rec` and on the originals scanned by
`dpll_iterative`, never on a list handed to `dpll_rec`. -/
def flags_false (cs : List Clause) : Prop :=
  ∀ c ∈ cs, c.isUnit = false

instance : DecidablePred flags_false := fun cs => by
  unfold flags_false; infer_instance

/-- Number of unassigned variables of an assignment dict. -/
def none_count (asn : Assign) : Nat :=
  (asn.filter (fun e => e.2 == none)).length

/-- Termination measure of the `dpll_iterative` work stack: pushing the two
children of a branch strictly decreases it. -/
def stack_measure (stack : List Assign) : Nat :=
  (stack.map (fun a => 3 ^ none_count a)).sum

/-- The outcome of `dpll_rec`'s evaluation loop when the loop does not
change the assignments (which is the case whenever the live clause list has
no `isUnit` flag set, making every `unit_propagate` call a no-op). -/
def dpll_pure_outcome (snap : List Clause) (asn : Assign) (b : Bool) : EvalOutcome :=
  match snap with
  | [] => if b then .undecided else .allsat
  | c :: rest =>
    match clause_value c asn with
    | UNSAT => .unsat
    | UNDECIDED => dpll_pure_outcome rest asn true
    | SAT => dpll_pure_outcome rest asn b

/-! ## Concrete inputs used by the claims -/

/-- The SOP string `"x1"`. -/
def c1_left : Option ClauseListT := mk_ClauseList "x1".data

/-- The SOP string `"x1 + x1.x2"`. -/
def c1_right : Option ClauseListT := mk_ClauseList "x1 + x1.x2".data

/-- The equivalence check run on `"x1"` and `"x1 + x1.x2"` with
`find_all = False` (oracle constantly 0, ample fuel). -/
def c1_check : Option (List Assign ⊕ Assign) :=
  match c1_left, c1_right with
  | some a, some b => some (boolean_functions_are_equivalent a b false (fun _ _ => 0) 64 64)
  | _, _ => none

/-! # Theorems -/

/-! ## Clause evaluator characterisation -/

theorem clause_value_count_eq_none (vals : List (Option Bool)) (acc : Nat) :
    clause_value_count vals acc = none ↔ some true ∈ vals := by
  induction vals generalizing acc with
  | nil => simp [clause_value_count]
  | cons v rest ih =>
    rcases v with - | b
    · simpa [clause_value_count] using ih acc
    · cases b
      · simpa [clause_value_count] using ih (acc + 1)
      · simp [clause_value_count]

theorem clause_value_count_eq_some (vals : List (Option Bool)) (acc : Nat)
    (h : some true ∉ vals) :
    clause_value_count vals acc = some (acc + vals.count (some false)) := by
  induction vals generalizing acc with
  | nil => simp [clause_value_count]
  | cons v rest ih =>
    have hv : v ≠ some true := fun hh => h (hh ▸ List.mem_cons_self v rest)
    have hrest : some true ∉ rest := fun hh => h (List.mem_cons_of_mem v hh)
    rcases v with - | b
    · rw [List.count_cons]
      simpa [clause_value_count] using ih acc hrest
    · cases b
      · rw [List.count_cons]
        simp only [clause_value_count, if_pos rfl]
        rw [ih (acc + 1) hrest]
        simp [Nat.add_assoc, Nat.add_comm 1]
      · exact absurd rfl hv

theorem count_false_add_count_none (vals : List (Option Bool))
    (h : some true ∉ vals) :
    vals.count (some false) + vals.count none = vals.length := by
  induction vals with
  | nil => simp
  | cons v rest ih =>
    have hv : v ≠ some true := fun hh => h (hh ▸ List.mem_cons_self v rest)
    have hrest : some true ∉ rest := fun hh => h (List.mem_cons_of_mem v hh)
    have ih' := ih hrest
    rw [List.count_cons, List.count_cons, List.length_cons]
    rcases v with - | b
    · simp only [show ((none : Option Bool) == some false) = false from rfl,
        show ((none : Option Bool) == none) = true from rfl, if_true, if_false]
      simp only [Bool.false_eq_true, if_false]
      omega
    · cases b
      · simp only [show ((some false : Option Bool) == some false) = true from rfl,
          show ((some false : Option Bool) == none) = false from rfl, if_true, if_false]
        simp only [Bool.false_eq_true, if_false]
        omega
      · exact absurd rfl hv

theorem length_values_of_literals (c : Clause) (asn : Assign) :
    (values_of_literals c asn).length = c.data.length := by
  simp [values_of_literals]

theorem mem_true_values_iff (c : Clause) (asn : Assign) :
    some true ∈ values_of_literals c asn ↔
      ∃ vp ∈ c.data, assign_get asn vp.1 = some vp.2 := by
  unfold values_of_literals
  rw [List.mem_map]
  constructor
  · rintro ⟨vp, hmem, hv⟩
    refine ⟨vp, hmem, ?_⟩
    cases hp : vp.2 <;> rw [hp] at hv <;>
      rcases hg : assign_get asn vp.1 with - | b <;> rw [hg] at hv <;>
      first
        | (exact absurd hv (by decide))
        | decide
        | (cases b <;> first | (exact absurd hv (by decide)) | decide)
  · rintro ⟨vp, hmem, hg⟩
    refine ⟨vp, hmem, ?_⟩
    rw [hg]
    cases hp : vp.2 <;> decide

theorem all_false_values_iff (c : Clause) (asn : Assign) :
    (∀ v ∈ values_of_literals c asn, v = some false) ↔
      ∀ vp ∈ c.data, assign_get asn vp.1 = some (!vp.2) := by
  unfold values_of_literals
  rw [List.forall_mem_map]
  constructor
  · intro h vp hmem
    have hv := h vp hmem
    cases hp : vp.2 <;> rw [hp] at hv <;>
      rcases hg : assign_get asn vp.1 with - | b <;> rw [hg] at hv <;>
      first
        | (exact absurd hv (by decide))
        | decide
        | (cases b <;> first | (exact absurd hv (by decide)) | decide)
  · intro vph vp hmem
    have hg := vph vp hmem
    rw [hg]
    cases hp : vp.2 <;> decide

theorem mem_none_values_iff (c : Clause) (asn : Assign) :
    none ∈ values_of_literals c asn ↔
      ∃ vp ∈ c.data, assign_get asn vp.1 = none := by
  unfold values_of_literals
  rw [List.mem_map]
  constructor
  · rintro ⟨vp, hmem, hv⟩
    refine ⟨vp, hmem, ?_⟩
    cases hp : vp.2 <;> rw [hp] at hv <;>
      rcases hg : assign_get asn vp.1 with - | b <;> rw [hg] at hv <;>
      first
        | rfl
        | (exact absurd hv (by decide))
        | (cases b <;> exact absurd hv (by decide))
  · rintro ⟨vp, hmem, hg⟩
    refine ⟨vp, hmem, ?_⟩
    rw [hg]
    cases hp : vp.2 <;> decide

theorem clause_value_eq_SAT (c : Clause) (asn : Assign) :
    clause_value c asn = SAT ↔
      ∃ vp ∈ c.data, assign_get asn vp.1 = some vp.2 := by
  rw [← mem_true_values_iff]
  constructor
  · intro h
    by_contra hmem
    have hsome := clause_value_count_eq_some (values_of_literals c asn) 0 hmem
    simp only [clause_value, hsome] at h
    split at h <;> exact absurd h (by decide)
  · intro hmem
    simp only [clause_value, (clause_value_count_eq_none _ 0).mpr hmem]

theorem clause_value_eq_UNSAT (c : Clause) (asn : Assign) :
    clause_value c asn = UNSAT ↔
      ∀ vp ∈ c.data, assign_get asn vp.1 = some (!vp.2) := by
  rw [← all_false_values_iff]
  constructor
  · intro h
    have hnotin : some true ∉ values_of_literals c asn := by
      intro hmem
      simp only [clause_value, (clause_value_count_eq_none _ 0).mpr hmem] at h
      exact absurd h (by decide)
    have hsome := clause_value_count_eq_some (values_of_literals c asn) 0 hnotin
    simp only [clause_value, hsome] at h
    split at h
    · next hlen =>
      have hlen2 : (values_of_literals c asn).count (some false) =
          (values_of_literals c asn).length := by
        rw [length_values_of_literals]
        omega
      intro v hv
      exact ((List.count_eq_length.mp hlen2) v hv).symm
    · exact absurd h (by decide)
  · intro hall
    have hnotin : some true ∉ values_of_literals c asn := by
      intro hm
      exact absurd (hall _ hm) (by decide)
    have hsome := clause_value_count_eq_some (values_of_literals c asn) 0 hnotin
    have hcount : (values_of_literals c asn).count (some false) =
        (values_of_literals c asn).length :=
      List.count_eq_length.mpr (fun b hb => (hall b hb).symm)
    simp only [clause_value, hsome]
    rw [if_pos]
    rw [hcount, length_values_of_literals]
    omega

theorem clause_value_eq_UNDECIDED (c : Clause) (asn : Assign) :
    clause_value c asn = UNDECIDED ↔
      clause_value c asn ≠ SAT ∧ clause_value c asn ≠ UNSAT := by
  cases h : clause_value c asn <;> simp

/-- An UNDECIDED clause has an unassigned literal. -/
theorem clause_value_UNDECIDED_has_none (c : Clause) (asn : Assign)
    (h : clause_value c asn = UNDECIDED) :
    ∃ vp ∈ c.data, assign_get asn vp.1 = none := by
  rw [← mem_none_values_iff]
  have hsat : some true ∉ values_of_literals c asn := by
    intro hm
    have h2 := (clause_value_eq_SAT c asn).mpr ((mem_true_values_iff c asn).mp hm)
    rw [h] at h2
    exact absurd h2 (by decide)
  have hunsat : ¬ ∀ v ∈ values_of_literals c asn, v = some false := by
    intro hall
    have h2 := (clause_value_eq_UNSAT c asn).mpr ((all_false_values_iff c asn).mp hall)
    rw [h] at h2
    exact absurd h2 (by decide)
  by_contra hnone
  apply hunsat
  intro v hv
  rcases v with - | b
  · exact absurd hv hnone
  · cases b
    · rfl
    · exact absurd hv hsat

/-- The number of `None` effective literal values equals the number of
unassigned variables of the clause. -/
theorem count_none_values (c : Clause) (asn : Assign) :
    (values_of_literals c asn).count none =
      ((c.data.map Prod.fst).filter (fun v => assign_get asn v == none)).length := by
  unfold values_of_literals
  rw [List.count_eq_countP, List.countP_map, ← List.countP_eq_length_filter,
    List.countP_map]
  apply List.countP_congr
  intro vp hvp
  simp only [Function.comp_apply]
  cases hp : vp.2 <;> rcases hg : assign_get asn vp.1 with - | b <;>
    first
      | decide
      | (cases b <;> decide)

/-- Characterisation of the `isUnit` side effect of `clause_value` on a
fresh clause: the flag is set exactly on an undecided clause with a single
unassigned literal. -/
theorem clause_unit_flag_char (c : Clause) (asn : Assign) (hu : c.isUnit = false) :
    (clause_unit_flag c asn = true ↔
      clause_value c asn = UNDECIDED ∧ semantic_unit c asn = true) := by
  unfold clause_unit_flag
  rw [hu, Bool.false_or]
  rcases hc : clause_value_count (values_of_literals c asn) 0 with - | n
  · constructor
    · intro h
      have h2 : (false : Bool) = true := h
      exact absurd h2 (by decide)
    · rintro ⟨hv, -⟩
      have hS : clause_value c asn = SAT := by simp only [clause_value, hc]
      rw [hS] at hv
      exact absurd hv (by decide)
  · have hnotin : some true ∉ values_of_literals c asn := by
      intro hmem
      rw [(clause_value_count_eq_none _ 0).mpr hmem] at hc
      exact absurd hc (by simp)
    have hsome := clause_value_count_eq_some (values_of_literals c asn) 0 hnotin
    have hn : n = (values_of_literals c asn).count (some false) := by
      rw [hsome] at hc
      have := Option.some.inj hc
      omega
    have hsum := count_false_add_count_none (values_of_literals c asn) hnotin
    have hlenv := length_values_of_literals c asn
    have hval : clause_value c asn =
        (if n = c.data.length then UNSAT else UNDECIDED) := by
      simp only [clause_value, hc]
    have hsem : semantic_unit c asn =
        ((values_of_literals c asn).count none == 1) := by
      unfold semantic_unit
      rw [← count_none_values]
    constructor
    · intro h
      have h2 : (n + 1 == c.data.length) = true := h
      have hflag : n + 1 = c.data.length := by simpa using h2
      refine ⟨?_, ?_⟩
      · rw [hval, if_neg (by omega)]
      · rw [hsem]
        have h3 : (values_of_literals c asn).count none = 1 := by omega
        rw [h3]
        decide
    · rintro ⟨hv, hs⟩
      rw [hval] at hv
      have hne : ¬(n = c.data.length) := by
        intro heq
        rw [if_pos heq] at hv
        exact absurd hv (by decide)
      rw [hsem] at hs
      have h1 : (values_of_literals c asn).count none = 1 := by simpa using hs
      have h4 : n + 1 = c.data.length := by omega
      exact (show ((n + 1 == c.data.length) = true) from beq_iff_eq.mpr h4)

/-- **C9.** For every clause and covering assignment, `clause_value` returns
`SAT` iff some literal's required polarity matches its assigned value,
`UNSAT` iff every literal is assigned and mismatches its required polarity
(so an unassigned literal never counts toward UNSAT), and `UNDECIDED`
otherwise; in the UNDECIDED case the clause is flagged as unit exactly when
exactly one literal is unassigned. -/
theorem C9_clause_value_classification (c : Clause) (asn : Assign)
    (hkeys : (c.data.map Prod.fst).Nodup)
    (hcov : ∀ vp ∈ c.data, (asn.find? (fun e => e.1 == vp.1)).isSome = true) :
    (clause_value c asn = SAT ↔
      ∃ vp ∈ c.data, assign_get asn vp.1 = some vp.2) ∧
    (clause_value c asn = UNSAT ↔
      ∀ vp ∈ c.data, assign_get asn vp.1 = some (!vp.2)) ∧
    (clause_value c asn = UNDECIDED ↔
      ¬(∃ vp ∈ c.data, assign_get asn vp.1 = some vp.2) ∧
      ¬(∀ vp ∈ c.data, assign_get asn vp.1 = some (!vp.2))) ∧
    (c.isUnit = false →
      (clause_unit_flag c asn = true ↔
        clause_value c asn = UNDECIDED ∧ semantic_unit c asn = true)) := by
  refine ⟨clause_value_eq_SAT c asn, clause_value_eq_UNSAT c asn, ?_,
    fun hu => clause_unit_flag_char c asn hu⟩
  constructor
  · intro h
    constructor
    · intro hx
      have h2 := (clause_value_eq_SAT c asn).mpr hx
      rw [h] at h2
      exact absurd h2 (by decide)
    · intro hx
      have h2 := (clause_value_eq_UNSAT c asn).mpr hx
      rw [h] at h2
      exact absurd h2 (by decide)
  · rintro ⟨h1, h2⟩
    cases hv : clause_value c asn
    · exact absurd ((clause_value_eq_SAT c asn).mp hv) h1
    · exact absurd ((clause_value_eq_UNSAT c asn).mp hv) h2
    · rfl

/-- Witness for C9 at a concrete clause and assignment. -/
theorem C9_witness :
    ((((make_CNF_clause [1, 2] []).data.map Prod.fst).Nodup) ∧
      (∀ vp ∈ (make_CNF_clause [1, 2] []).data,
        (([(1, some false), (2, none)] : Assign).find?
          (fun e => e.1 == vp.1)).isSome = true)) ∧
    (clause_value (make_CNF_clause [1, 2] []) [(1, some false), (2, none)] = UNDECIDED ↔
      ¬(∃ vp ∈ (make_CNF_clause [1, 2] []).data,
          assign_get [(1, some false), (2, none)] vp.1 = some vp.2) ∧
      ¬(∀ vp ∈ (make_CNF_clause [1, 2] []).data,
          assign_get [(1, some false), (2, none)] vp.1 = some (!vp.2))) := by
  refine ⟨⟨by decide, by decide⟩, ?_⟩
  exact (C9_clause_value_classification (make_CNF_clause [1, 2] [])
    [(1, some false), (2, none)] (by decide) (by decide)).2.2.1

/-- **C10.** On the empty clause list both engines return the empty
dictionary, the same sentinel used for UNSAT, although the empty CNF formula
is satisfied by every assignment; the two outcomes are therefore
indistinguishable through the return value. -/
theorem C10_empty_formula_unsat_sentinel :
    (∀ (σ : Nat → Nat) (fuel : Nat), dpll_rec_entry σ fuel [] = []) ∧
    (∀ (σ : Nat → Nat) (fuel : Nat), dpll_iterative σ fuel [] = []) ∧
    (∀ A : Nat → Bool, cnf_sat_b A [] = true) := by
  refine ⟨fun σ fuel => ?_, fun σ fuel => rfl, fun A => rfl⟩
  cases fuel <;> rfl

/-- **C7 counterexample.** A construction request with the same variable
positive and negative does not raise: it silently collapses to a single
negative literal (there is no `ContradictoryLiteralSet` anywhere in the
code; the check is commented out), and the parsed term `x1.~x1` is the
(satisfiable) clause `{1: negative}`. -/
theorem C7_counterexample :
    make_CNF_clause [1] [1] = ⟨[(1, false)], false⟩ ∧
    parse_SOP_string "x1.~x1".data = some [Clause.mk [(1, false)] false] := by
  exact ⟨by decide, by decide⟩

/-- **C7 amended.** `make_CNF_dict` silently collapses a variable passed in
both `ones` and `zeros` to one negative literal (the `zeros` loop overwrites
the `ones` entry); `x1.~x1` therefore parses to the single clause `~x1`,
which is satisfiable (by `x1 = 0`) rather than treated as impossible. -/
theorem C7_amended :
    (∀ v : Nat, make_CNF_dict [v] [v] = [(v, false)]) ∧
    parse_SOP_string "x1.~x1".data = some [make_CNF_clause [1] [1]] ∧
    term_sat_b (fun _ => false) (make_CNF_clause [1] [1]) = true := by
  refine ⟨fun v => ?_, by decide, by decide⟩
  simp [make_CNF_dict, List.dedup_cons_of_not_mem, List.contains]

/-- **C8 counterexample.** `parse_SOP_string` fails on the empty string even
though it contains no character outside the allowed class, refuting the
claimed "fails if and only if a forbidden character occurs". -/
theorem C8_counterexample :
    ¬(parse_SOP_string "".data = none ↔
      ∃ c ∈ ("".data : List Char), allowed_char c = false) := by
  decide

/-- **C8 amended.** `parse_SOP_string` fails exactly when the input is empty
or contains a character outside `[ \r\n.~+x0-9]` (case-insensitive);
otherwise it succeeds, and fragments not matching the literal pattern are
silently ignored (e.g. the dangling `x` below contributes an empty term
clause instead of an error). -/
theorem C8_amended :
    (∀ text : List Char,
      (parse_SOP_string text = none ↔
        text = [] ∨ text.all allowed_char = false)) ∧
    parse_SOP_string "x1 + x".data =
      some [Clause.mk [(1, true)] false, Clause.mk [] false] := by
  refine ⟨fun text => ?_, by decide⟩
  unfold parse_SOP_string
  split
  · next h =>
    simp only [reduceCtorEq, false_iff]
    push_neg
    exact ⟨h.1, by simp [h.2]⟩
  · next h =>
    rw [iff_true_intro rfl, true_iff]
    by_cases hnil : text = []
    · exact Or.inl hnil
    · refine Or.inr ?_
      rcases h2 : text.all allowed_char
      · rfl
      · exact absurd ⟨hnil, h2⟩ h

/-! ## GCF encoder invariants (C5) -/

theorem foldr_max_le {l : List Nat} {n : Nat} (h : ∀ x ∈ l, x ≤ n) :
    l.foldr max 0 ≤ n := by
  induction l with
  | nil => simp
  | cons a t ih =>
    simp only [List.foldr_cons]
    exact Nat.max_le.mpr ⟨h a (List.mem_cons_self a t), ih (fun x hx => h x (List.mem_cons_of_mem a hx))⟩

theorem le_foldr_max {l : List Nat} {x : Nat} (h : x ∈ l) : x ≤ l.foldr max 0 := by
  induction l with
  | nil => simp at h
  | cons a t ih =>
    simp only [List.foldr_cons]
    rcases List.mem_cons.mp h with h1 | h1
    · exact h1 ▸ Nat.le_max_left _ _
    · exact Nat.le_trans (ih h1) (Nat.le_max_right _ _)

theorem find_maximum_literal_append (xs ys : List Clause) :
    find_maximum_literal (xs ++ ys) =
      max (find_maximum_literal xs) (find_maximum_literal ys) := by
  induction xs with
  | nil => simp [find_maximum_literal]
  | cons c t ih =>
    show max _ (find_maximum_literal (t ++ ys)) = max (max _ (find_maximum_literal t)) _
    rw [ih, Nat.max_assoc]

theorem find_maximum_literal_le {cs : List Clause} {n : Nat}
    (h : ∀ c ∈ cs, ∀ vp ∈ c.data, vp.1 ≤ n) : find_maximum_literal cs ≤ n := by
  unfold find_maximum_literal
  apply foldr_max_le
  intro x hx
  rw [List.mem_map] at hx
  obtain ⟨c, hc, hcx⟩ := hx
  subst hcx
  apply foldr_max_le
  intro v hv
  rw [List.mem_map] at hv
  obtain ⟨vp, hvp, hveq⟩ := hv
  exact hveq ▸ h c hc vp hvp

theorem le_find_maximum_literal {cs : List Clause} {c : Clause} {vp : Nat × Bool}
    (hc : c ∈ cs) (hvp : vp ∈ c.data) : vp.1 ≤ find_maximum_literal cs := by
  unfold find_maximum_literal
  refine Nat.le_trans ?_ (le_foldr_max (List.mem_map_of_mem _ hc))
  exact le_foldr_max (List.mem_map_of_mem _ hvp)

theorem make_CNF_dict_keys {ones zeros : List Nat} {vp : Nat × Bool}
    (h : vp ∈ make_CNF_dict ones zeros) : vp.1 ∈ ones ∨ vp.1 ∈ zeros := by
  unfold make_CNF_dict at h
  rcases List.mem_append.mp h with h1 | h1 <;> rw [List.mem_map] at h1 <;>
    obtain ⟨v, hv, hveq⟩ := h1
  · exact Or.inl (by rw [← hveq]; exact List.mem_dedup.mp hv)
  · refine Or.inr (by rw [← hveq]; exact List.mem_dedup.mp (List.mem_of_mem_filter hv))

theorem gcf_and_var_le {t : List (Nat × Bool)} {z n : Nat}
    (ht : ∀ vp ∈ t, vp.1 ≤ n) (hz : z ≤ n) :
    ∀ c ∈ add_GCF_for_and t z, ∀ vp ∈ c.data, vp.1 ≤ n := by
  intro c hc vp hvp
  unfold add_GCF_for_and at hc
  rcases List.mem_append.mp hc with h1 | h1
  · rw [List.mem_map] at h1
    obtain ⟨lit, hlit, hceq⟩ := h1
    subst hceq
    split at hvp <;> rcases make_CNF_dict_keys hvp with h2 | h2 <;> simp at h2
    · exact h2 ▸ ht lit hlit
    · exact h2 ▸ hz
    · rcases h2 with h2 | h2
      · exact h2 ▸ hz
      · exact h2 ▸ ht lit hlit
  · rw [List.mem_singleton] at h1
    subst h1
    rcases make_CNF_dict_keys hvp with h2 | h2
    · rcases List.mem_append.mp h2 with h3 | h3
      · rw [List.mem_map] at h3
        obtain ⟨l2, hl2, hleq⟩ := h3
        exact hleq ▸ ht l2 (List.mem_of_mem_filter hl2)
      · rw [List.mem_singleton] at h3
        exact h3 ▸ hz
    · rw [List.mem_map] at h2
      obtain ⟨l2, hl2, hleq⟩ := h2
      exact hleq ▸ ht l2 (List.mem_of_mem_filter hl2)

theorem gcf_or_var_le {ins : List Nat} {out n : Nat}
    (hi : ∀ v ∈ ins, v ≤ n) (ho : out ≤ n) :
    ∀ c ∈ add_GCF_for_or ins out, ∀ vp ∈ c.data, vp.1 ≤ n := by
  intro c hc vp hvp
  unfold add_GCF_for_or at hc
  rcases List.mem_append.mp hc with h1 | h1
  · rw [List.mem_map] at h1
    obtain ⟨v, hv, hceq⟩ := h1
    subst hceq
    rcases make_CNF_dict_keys hvp with h2 | h2 <;> simp at h2
    · exact h2 ▸ ho
    · exact h2 ▸ hi v hv
  · rw [List.mem_singleton] at h1
    subst h1
    rcases make_CNF_dict_keys hvp with h2 | h2
    · exact hi vp.1 h2
    · simp at h2
      exact h2 ▸ ho

/-- The unit output clause appended at the end of the encoding. -/
theorem convert_SOP_output_clause_data (F : Nat) :
    (make_CNF_clause [F] []).data = [(F, true)] := by
  simp [make_CNF_clause, make_CNF_dict]

/-- **C5.** For every nonempty product-term list, the CNF emitted by
`convert_SOP_to_CNF` has maximum variable index exactly
`maxInputVar + k + 1` (`k` the number of terms), and it contains the unit
clause asserting that output variable. -/
theorem C5_output_variable_invariant (S : List Clause) (hne : S ≠ [])
    (hterms : ∀ t ∈ S, t.data ≠ []) :
    find_maximum_literal (convert_SOP_to_CNF S) =
      find_maximum_literal S + S.length + 1 ∧
    make_CNF_clause [1 + find_maximum_literal S + S.length] [] ∈
      convert_SOP_to_CNF S := by
  have hmem : make_CNF_clause [1 + find_maximum_literal S + S.length] [] ∈
      convert_SOP_to_CNF S := by
    unfold convert_SOP_to_CNF
    exact List.mem_append.mpr (Or.inr (List.mem_singleton.mpr rfl))
  refine ⟨?_, hmem⟩
  have hF : 1 + find_maximum_literal S + S.length =
      find_maximum_literal S + S.length + 1 := by omega
  apply Nat.le_antisymm
  · apply find_maximum_literal_le
    intro c hc vp hvp
    unfold convert_SOP_to_CNF at hc
    rcases List.mem_append.mp hc with h1 | hu
    · rcases List.mem_append.mp h1 with h2 | h2
      · rw [List.mem_flatten] at h2
        obtain ⟨blk, hblk, hcb⟩ := h2
        rw [List.mem_map] at hblk
        obtain ⟨it, hit, hbeq⟩ := hblk
        obtain ⟨i, t⟩ := it
        have henum := List.mem_enum hit
        subst hbeq
        refine @gcf_and_var_le t.data _ _ ?_ ?_ c hcb vp hvp
        · intro vp2 hvp2
          have : t ∈ S := henum.2 ▸ List.getElem_mem henum.1
          exact Nat.le_trans (le_find_maximum_literal this hvp2) (by omega)
        · have := henum.1
          simp only at this ⊢
          omega
      · refine gcf_or_var_le ?_ ?_ c h2 vp hvp
        · intro v hv
          have := List.mem_range'.mp hv
          omega
        · omega
    · rw [List.mem_singleton] at hu
      subst hu
      rw [convert_SOP_output_clause_data] at hvp
      rw [List.mem_singleton] at hvp
      subst hvp
      omega
  · refine Nat.le_trans ?_
      (@le_find_maximum_literal _ _ (1 + find_maximum_literal S + S.length, true) hmem ?_)
    · omega
    · rw [convert_SOP_output_clause_data]
      exact List.mem_singleton.mpr rfl

/-- Witness for C5 at the concrete SOP list for `"x1"`. -/
theorem C5_witness :
    (([make_CNF_clause [1] []] : List Clause) ≠ [] ∧
      (∀ t ∈ ([make_CNF_clause [1] []] : List Clause), t.data ≠ [])) ∧
    (find_maximum_literal (convert_SOP_to_CNF [make_CNF_clause [1] []]) =
        find_maximum_literal [make_CNF_clause [1] []] +
          ([make_CNF_clause [1] []] : List Clause).length + 1 ∧
      make_CNF_clause
          [1 + find_maximum_literal [make_CNF_clause [1] []] +
            ([make_CNF_clause [1] []] : List Clause).length] [] ∈
        convert_SOP_to_CNF [make_CNF_clause [1] []]) :=
  ⟨⟨by decide, by decide⟩,
    C5_output_variable_invariant [make_CNF_clause [1] []] (by decide) (by decide)⟩

/-! ## GCF encoder semantics (C3) -/

theorem clause_sat_make_CNF (A : Nat → Bool) (ones zeros : List Nat)
    (hdisj : ∀ v ∈ ones, v ∉ zeros) :
    (clause_sat_b A (make_CNF_clause ones zeros) = true ↔
      (∃ v ∈ ones, A v = true) ∨ (∃ v ∈ zeros, A v = false)) := by
  unfold clause_sat_b make_CNF_clause make_CNF_dict
  simp only [List.any_eq_true, List.mem_append, List.mem_map, List.mem_filter,
    List.mem_dedup]
  constructor
  · rintro ⟨vp, hvp | hvp, hsat⟩
    · obtain ⟨v, hv, hveq⟩ := hvp
      subst hveq
      simp only at hsat
      left
      refine ⟨v, hv, ?_⟩
      have hnz : zeros.contains v = false := by
        rcases hz : zeros.contains v
        · rfl
        · exact absurd (List.elem_iff.mp hz) (hdisj v hv)
      rw [hnz] at hsat
      simpa using hsat
    · obtain ⟨v, ⟨hv, -⟩, hveq⟩ := hvp
      subst hveq
      right
      exact ⟨v, hv, by simpa using hsat⟩
  · rintro (⟨v, hv, hA⟩ | ⟨v, hv, hA⟩)
    · refine ⟨(v, !(zeros.contains v)), Or.inl ⟨v, hv, rfl⟩, ?_⟩
      have hnz : zeros.contains v = false := by
        rcases hz : zeros.contains v
        · rfl
        · exact absurd (List.elem_iff.mp hz) (hdisj v hv)
      rw [hnz, hA]
      rfl
    · by_cases ho : v ∈ ones
      · exact absurd hv (hdisj v ho)
      · refine ⟨(v, false), Or.inr ⟨v, ⟨hv, ?_⟩, rfl⟩, by rw [hA]; rfl⟩
        rcases hc : ones.contains v
        · rfl
        · exact absurd (List.elem_iff.mp hc) ho

theorem and_gcf_forward {A : Nat → Bool} {t : List (Nat × Bool)} {z : Nat}
    (hsat : ∀ c ∈ add_GCF_for_and t z, clause_sat_b A c = true)
    (hz : A z = true) (hzk : ∀ vp ∈ t, vp.1 ≠ z) :
    ∀ vp ∈ t, A vp.1 = vp.2 := by
  intro vp hvp
  have hmem : (if vp.2 = POS_LIT then make_CNF_clause [vp.1] [z]
      else make_CNF_clause [] [z, vp.1]) ∈ add_GCF_for_and t z := by
    unfold add_GCF_for_and
    exact List.mem_append.mpr (Or.inl (List.mem_map.mpr ⟨vp, hvp, rfl⟩))
  have hc := hsat _ hmem
  by_cases hp : vp.2 = POS_LIT
  · rw [if_pos hp] at hc
    rw [clause_sat_make_CNF A [vp.1] [z]
      (by intro v hv; simp at hv; subst hv; simpa using hzk vp hvp)] at hc
    rcases hc with ⟨v, hv, hA⟩ | ⟨v, hv, hA⟩
    · simp at hv
      subst hv
      rw [hA, hp]
      rfl
    · simp at hv
      subst hv
      rw [hz] at hA
      exact absurd hA (by decide)
  · rw [if_neg hp] at hc
    have hp2 : vp.2 = false := by
      rcases h2 : vp.2
      · rfl
      · exact absurd (by rw [h2]; rfl) hp
    rw [clause_sat_make_CNF A [] [z, vp.1] (by intro v hv; simp at hv)] at hc
    rcases hc with ⟨v, hv, -⟩ | ⟨v, hv, hA⟩
    · simp at hv
    · simp at hv
      rcases hv with hv | hv
      · subst hv
        rw [hz] at hA
        exact absurd hA (by decide)
      · subst hv
        rw [hA, hp2]

theorem or_gcf_forward {A : Nat → Bool} {ins : List Nat} {out : Nat}
    (hsat : ∀ c ∈ add_GCF_for_or ins out, clause_sat_b A c = true)
    (hout : A out = true) (hdisj : out ∉ ins) :
    ∃ v ∈ ins, A v = true := by
  have hmem : make_CNF_clause ins [out] ∈ add_GCF_for_or ins out := by
    unfold add_GCF_for_or
    exact List.mem_append.mpr (Or.inr (List.mem_singleton.mpr rfl))
  have hc := hsat _ hmem
  rw [clause_sat_make_CNF A ins [out]
    (by intro v hv hc2; simp at hc2; subst hc2; exact hdisj hv)] at hc
  rcases hc with h | ⟨v, hv, hA⟩
  · exact h
  · simp at hv
    subst hv
    rw [hout] at hA
    exact absurd hA (by decide)

theorem and_gcf_backward {A : Nat → Bool} {t : List (Nat × Bool)} {z : Nat}
    (hz : A z = t.all (fun vp => A vp.1 == vp.2))
    (hzk : ∀ vp ∈ t, vp.1 ≠ z) (hnd : (t.map Prod.fst).Nodup) :
    ∀ c ∈ add_GCF_for_and t z, clause_sat_b A c = true := by
  intro c hc
  unfold add_GCF_for_and at hc
  rcases List.mem_append.mp hc with h1 | h1
  · rw [List.mem_map] at h1
    obtain ⟨vp, hvp, hceq⟩ := h1
    subst hceq
    rcases hAz : A z
    · by_cases hp : vp.2 = POS_LIT
      · rw [if_pos hp]
        rw [clause_sat_make_CNF A [vp.1] [z]
          (by intro v hv; simp at hv; subst hv; simpa using hzk vp hvp)]
        exact Or.inr ⟨z, by simp, hAz⟩
      · rw [if_neg hp]
        rw [clause_sat_make_CNF A [] [z, vp.1] (by intro v hv; simp at hv)]
        exact Or.inr ⟨z, by simp, hAz⟩
    · have hall : t.all (fun vp => A vp.1 == vp.2) = true := by rw [← hz, hAz]
      have hvpv : A vp.1 = vp.2 := by
        have := List.all_eq_true.mp hall vp hvp
        simpa using this
      by_cases hp : vp.2 = POS_LIT
      · rw [if_pos hp]
        rw [clause_sat_make_CNF A [vp.1] [z]
          (by intro v hv; simp at hv; subst hv; simpa using hzk vp hvp)]
        exact Or.inl ⟨vp.1, by simp, by rw [hvpv, hp]; rfl⟩
      · have hp2 : vp.2 = false := by
          rcases h2 : vp.2
          · rfl
          · exact absurd (by rw [h2]; rfl) hp
        rw [if_neg hp]
        rw [clause_sat_make_CNF A [] [z, vp.1] (by intro v hv; simp at hv)]
        exact Or.inr ⟨vp.1, by simp, by rw [hvpv, hp2]⟩
  · rw [List.mem_singleton] at h1
    subst h1
    have hdisj : ∀ v ∈ ((t.filter (fun vp => vp.2 = NEG_LIT)).map Prod.fst) ++ [z],
        v ∉ (t.filter (fun vp => vp.2 = POS_LIT)).map Prod.fst := by
      intro v hv hvpos
      rw [List.mem_map] at hvpos
      obtain ⟨vp1, hvp1, hv1⟩ := hvpos
      rcases List.mem_append.mp hv with h2 | h2
      · rw [List.mem_map] at h2
        obtain ⟨vp2, hvp2, hv2⟩ := h2
        have heq : vp1 = vp2 :=
          List.inj_on_of_nodup_map hnd (List.mem_of_mem_filter hvp1)
            (List.mem_of_mem_filter hvp2) (by rw [hv1, hv2])
        have e1 := (List.mem_filter.mp hvp1).2
        have e2 := (List.mem_filter.mp hvp2).2
        rw [heq] at e1
        simp only [POS_LIT, NEG_LIT, decide_eq_true_eq] at e1 e2
        rw [e1] at e2
        exact absurd e2 (by decide)
      · rw [List.mem_singleton] at h2
        subst h2
        exact hzk vp1 (List.mem_of_mem_filter hvp1) hv1
    rw [clause_sat_make_CNF A _ _ hdisj]
    rcases hAz : A z
    · have hnall : t.all (fun vp => A vp.1 == vp.2) = false := by
        rcases hall : t.all (fun vp => A vp.1 == vp.2)
        · rfl
        · rw [hall, hAz] at hz
          exact absurd hz (by decide)
      obtain ⟨vp, hvp, hne⟩ := List.all_eq_false.mp hnall
      have hmis : A vp.1 = !vp.2 := by
        rcases hA1 : A vp.1 <;> rcases hv2 : vp.2 <;> rw [hA1, hv2] at hne <;>
          first
            | rfl
            | (exact absurd hne (by decide))
      rcases hv2 : vp.2
      · refine Or.inl ⟨vp.1, List.mem_append.mpr (Or.inl ?_), by rw [hmis, hv2]; rfl⟩
        exact List.mem_map.mpr ⟨vp, List.mem_filter.mpr ⟨hvp, by simp [NEG_LIT, hv2]⟩, rfl⟩
      · refine Or.inr ⟨vp.1, ?_, by rw [hmis, hv2]; rfl⟩
        exact List.mem_map.mpr ⟨vp, List.mem_filter.mpr ⟨hvp, by simp [POS_LIT, hv2]⟩, rfl⟩
    · exact Or.inl ⟨z, List.mem_append.mpr (Or.inr (List.mem_singleton.mpr rfl)), hAz⟩

theorem or_gcf_backward {A : Nat → Bool} {ins : List Nat} {out : Nat}
    (hout : A out = ins.any A) (hdisj : out ∉ ins) :
    ∀ c ∈ add_GCF_for_or ins out, clause_sat_b A c = true := by
  intro c hc
  unfold add_GCF_for_or at hc
  rcases List.mem_append.mp hc with h1 | h1
  · rw [List.mem_map] at h1
    obtain ⟨v, hv, hceq⟩ := h1
    subst hceq
    rw [clause_sat_make_CNF A [out] [v]
      (by intro u hu hu2; simp at hu hu2; subst hu; subst hu2; exact hdisj hv)]
    rcases hAv : A v
    · exact Or.inr ⟨v, by simp, hAv⟩
    · refine Or.inl ⟨out, by simp, ?_⟩
      rw [hout, List.any_eq_true]
      exact ⟨v, hv, hAv⟩
  · rw [List.mem_singleton] at h1
    subst h1
    rw [clause_sat_make_CNF A ins [out]
      (by intro u hu hu2; simp at hu2; subst hu2; exact hdisj hu)]
    rcases hAo : A out
    · exact Or.inr ⟨out, by simp, hAo⟩
    · rw [hAo] at hout
      obtain ⟨v, hv, hAv⟩ := List.any_eq_true.mp hout.symm
      exact Or.inl ⟨v, hv, hAv⟩

theorem all_congr_bool {α : Type} {p q : α → Bool} :
    ∀ {l : List α}, (∀ a ∈ l, p a = q a) → l.all p = l.all q := by
  intro l
  induction l with
  | nil => exact fun _ => rfl
  | cons a t ih =>
    intro h
    rw [List.all_cons, List.all_cons, h a (List.mem_cons_self a t),
      ih (fun x hx => h x (List.mem_cons_of_mem a hx))]

theorem enum_self_mem (l : List Clause) (i : Nat) (h : i < l.length) :
    (i, l[i]) ∈ l.enum := by
  rw [List.mem_iff_getElem]
  refine ⟨i, by simpa using h, ?_⟩
  simp [List.enum, List.getElem_enumFrom]

/-- Any assignment satisfying the emitted CNF satisfies the SOP expression
directly (on the original variables). -/
theorem convert_SOP_forward (S : List Clause) (A : Nat → Bool)
    (hA : cnf_sat_b A (convert_SOP_to_CNF S) = true) :
    sop_sat_b A S = true := by
  unfold cnf_sat_b at hA
  rw [List.all_eq_true] at hA
  have hunit := hA (make_CNF_clause [1 + find_maximum_literal S + S.length] [])
    (List.mem_append.mpr (Or.inr (List.mem_singleton.mpr rfl)))
  rw [clause_sat_make_CNF A _ _ (by intro v hv hv2; simp at hv2)] at hunit
  have hF : A (1 + find_maximum_literal S + S.length) = true := by
    rcases hunit with ⟨v, hv, hAv⟩ | ⟨v, hv, -⟩
    · simp at hv
      exact hv ▸ hAv
    · simp at hv
  have hsat_or : ∀ c ∈ add_GCF_for_or
      (List.range' (find_maximum_literal S + 1) S.length)
      (1 + find_maximum_literal S + S.length), clause_sat_b A c = true := by
    intro c hc
    exact hA c (List.mem_append.mpr (Or.inl (List.mem_append.mpr (Or.inr hc))))
  obtain ⟨zv, hzv, hAz⟩ := or_gcf_forward hsat_or hF
    (by
      intro hmem
      rw [List.mem_range'] at hmem
      obtain ⟨i, hik, hieq⟩ := hmem
      omega)
  rw [List.mem_range'] at hzv
  obtain ⟨i, hik, hieq⟩ := hzv
  have hsat_and : ∀ c ∈ add_GCF_for_and (S[i].data)
      (find_maximum_literal S + 1 + i), clause_sat_b A c = true := by
    intro c hc
    refine hA c (List.mem_append.mpr (Or.inl (List.mem_append.mpr (Or.inl ?_))))
    rw [List.mem_flatten]
    refine ⟨add_GCF_for_and (S[i].data) (find_maximum_literal S + 1 + i),
      List.mem_map.mpr ⟨(i, S[i]), enum_self_mem S i hik, rfl⟩, hc⟩
  have hzeq : zv = find_maximum_literal S + 1 + i := by omega
  have hterm := and_gcf_forward hsat_and (hzeq ▸ hAz)
    (by
      intro vp hvp heq
      have := le_find_maximum_literal (List.getElem_mem hik) hvp
      omega)
  unfold sop_sat_b
  rw [List.any_eq_true]
  refine ⟨S[i], List.getElem_mem hik, ?_⟩
  unfold term_sat_b
  rw [List.all_eq_true]
  intro vp hvp
  rw [hterm vp hvp]
  exact beq_self_eq_true _

/-- If the SOP expression is satisfiable then so is the emitted CNF. -/
theorem convert_SOP_backward (S : List Clause)
    (hnd : ∀ t ∈ S, (t.data.map Prod.fst).Nodup)
    (A : Nat → Bool) (hA : sop_sat_b A S = true) :
    ∃ B : Nat → Bool, cnf_sat_b B (convert_SOP_to_CNF S) = true := by
  classical
  set m := find_maximum_literal S with hm
  set k := S.length with hk
  refine ⟨fun v =>
    if v ≤ m then A v
    else if v = 1 + m + k then sop_sat_b A S
    else match S.get? (v - (m + 1)) with
      | some t => term_sat_b A t
      | none => false, ?_⟩
  set B : Nat → Bool := fun v =>
    if v ≤ m then A v
    else if v = 1 + m + k then sop_sat_b A S
    else match S.get? (v - (m + 1)) with
      | some t => term_sat_b A t
      | none => false with hB
  have hBlow : ∀ v, v ≤ m → B v = A v := by
    intro v hv
    rw [hB]
    simp only [if_pos hv]
  have hBF : B (1 + m + k) = sop_sat_b A S := by
    rw [hB]
    simp only
    rw [if_neg (by omega)]
    simp
  have hBz : ∀ i, (hik : i < S.length) → B (m + 1 + i) = term_sat_b A S[i] := by
    intro i hik
    rw [hB]
    simp only
    rw [if_neg (by omega), if_neg (by omega)]
    have hii : m + 1 + i - (m + 1) = i := by omega
    rw [hii, List.get?_eq_getElem?, List.getElem?_eq_getElem (by omega : i < S.length)]
  unfold cnf_sat_b
  rw [List.all_eq_true]
  intro c hc
  unfold convert_SOP_to_CNF at hc
  rcases List.mem_append.mp hc with h1 | hu
  · rcases List.mem_append.mp h1 with h2 | h2
    · rw [List.mem_flatten] at h2
      obtain ⟨blk, hblk, hcb⟩ := h2
      rw [List.mem_map] at hblk
      obtain ⟨it, hit, hbeq⟩ := hblk
      obtain ⟨i, t⟩ := it
      have henum := List.mem_enum hit
      have hik : i < k := by rw [hk]; exact henum.1
      have ht : t = S[i] := henum.2
      have htS : t ∈ S := by rw [ht]; exact List.getElem_mem henum.1
      subst hbeq
      refine and_gcf_backward ?_ ?_ ?_ c hcb
      · have hkeys : ∀ vp ∈ t.data, vp.1 ≤ m := by
          intro vp hvp
          exact le_find_maximum_literal htS hvp
        have hcongr : t.data.all (fun vp => B vp.1 == vp.2) =
            t.data.all (fun vp => A vp.1 == vp.2) := by
          apply all_congr_bool
          intro vp hvp
          rw [hBlow vp.1 (hkeys vp hvp)]
        simp only at hcongr ⊢
        rw [hcongr, hBz i hik, ht]
        rfl
      · intro vp hvp heq
        have := le_find_maximum_literal htS hvp
        simp only at heq
        omega
      · exact hnd t htS
    · refine or_gcf_backward ?_ ?_ c h2
      · rw [hBF]
        rcases hsop : sop_sat_b A S
        · symm
          rw [List.any_eq_false]
          intro v hv
          rw [List.mem_range'] at hv
          obtain ⟨i, hik, hieq⟩ := hv
          have : v = m + 1 + i := by omega
          rw [this, hBz i hik]
          unfold sop_sat_b at hsop
          rw [List.any_eq_false] at hsop
          simpa using hsop S[i] (List.getElem_mem hik)
        · symm
          rw [List.any_eq_true]
          unfold sop_sat_b at hsop
          rw [List.any_eq_true] at hsop
          obtain ⟨t, htm, hts⟩ := hsop
          rw [List.mem_iff_getElem] at htm
          obtain ⟨i, hik, hieq⟩ := htm
          refine ⟨m + 1 + i, ?_, ?_⟩
          · rw [List.mem_range']
            exact ⟨i, hik, by omega⟩
          · rw [hBz i hik, hieq]
            exact hts
      · intro hmem
        rw [List.mem_range'] at hmem
        obtain ⟨i, hik, hieq⟩ := hmem
        omega
  · rw [List.mem_singleton] at hu
    subst hu
    rw [clause_sat_make_CNF B _ _ (by intro v hv hv2; simp at hv2)]
    refine Or.inl ⟨1 + m + k, by simp, ?_⟩
    rw [hBF]
    exact hA

/-- **C3.** For a nonempty SOP term list, the CNF emitted by
`convert_SOP_to_CNF` is satisfiable iff the SOP expression is satisfiable,
and any assignment satisfying the CNF satisfies the SOP expression directly
(its projection onto the original variables is the assignment itself). -/
theorem C3_convert_equisatisfiable (S : List Clause) (hne : S ≠ [])
    (hterms : ∀ t ∈ S, t.data ≠ [] ∧ (t.data.map Prod.fst).Nodup) :
    ((∃ A : Nat → Bool, cnf_sat_b A (convert_SOP_to_CNF S) = true) ↔
      ∃ A : Nat → Bool, sop_sat_b A S = true) ∧
    (∀ A : Nat → Bool, cnf_sat_b A (convert_SOP_to_CNF S) = true →
      sop_sat_b A S = true) := by
  refine ⟨⟨?_, ?_⟩, fun A hA => convert_SOP_forward S A hA⟩
  · rintro ⟨A, hA⟩
    exact ⟨A, convert_SOP_forward S A hA⟩
  · rintro ⟨A, hA⟩
    exact convert_SOP_backward S (fun t ht => (hterms t ht).2) A hA

/-- Witness for C3 at the concrete SOP list for `"x1"`. -/
theorem C3_witness :
    (([make_CNF_clause [1] []] : List Clause) ≠ [] ∧
      (∀ t ∈ ([make_CNF_clause [1] []] : List Clause),
        t.data ≠ [] ∧ (t.data.map Prod.fst).Nodup)) ∧
    (((∃ A : Nat → Bool,
        cnf_sat_b A (convert_SOP_to_CNF [make_CNF_clause [1] []]) = true) ↔
      ∃ A : Nat → Bool, sop_sat_b A [make_CNF_clause [1] []] = true) ∧
    (∀ A : Nat → Bool,
      cnf_sat_b A (convert_SOP_to_CNF [make_CNF_clause [1] []]) = true →
        sop_sat_b A [make_CNF_clause [1] []] = true)) :=
  ⟨⟨by decide, by decide⟩,
    C3_convert_equisatisfiable [make_CNF_clause [1] []] (by decide) (by decide)⟩

/-! ## Unit propagation (C6) -/

theorem keys_assign_set (asn : Assign) (v : Nat) (b : Option Bool) :
    (assign_set asn v b).map Prod.fst = asn.map Prod.fst := by
  unfold assign_set
  rw [List.map_map]
  apply List.map_congr_left
  intro e he
  by_cases h : e.1 = v <;> simp [h]

theorem mem_none_assign_set {asn : Assign} {v lit : Nat} {pol : Bool}
    (h : (v, (none : Option Bool)) ∈ assign_set asn lit (some pol)) :
    (v, (none : Option Bool)) ∈ asn := by
  unfold assign_set at h
  rw [List.mem_map] at h
  obtain ⟨e, he, heq⟩ := h
  by_cases h2 : e.1 = lit
  · rw [if_pos h2] at heq
    exact absurd (congrArg Prod.snd heq) (by simp)
  · rw [if_neg h2] at heq
    exact heq ▸ he

theorem assign_get_cons_pos {e : Nat × Option Bool} {t : Assign} {v : Nat}
    (h : e.1 = v) : assign_get (e :: t) v = e.2 := by
  unfold assign_get
  rw [List.find?_cons_of_pos _ (by simpa using h)]

theorem assign_get_cons_neg {e : Nat × Option Bool} {t : Assign} {v : Nat}
    (h : ¬ e.1 = v) : assign_get (e :: t) v = assign_get t v := by
  unfold assign_get
  rw [List.find?_cons_of_neg _ (by simpa using h)]

theorem assign_get_nodup {asn : Assign} {v : Nat} {x : Option Bool}
    (hnd : (asn.map Prod.fst).Nodup) (h : (v, x) ∈ asn) :
    assign_get asn v = x := by
  induction asn with
  | nil => simp at h
  | cons e t ih =>
    rw [List.map_cons, List.nodup_cons] at hnd
    rcases List.mem_cons.mp h with h1 | h1
    · subst h1
      unfold assign_get
      simp [List.find?_cons_of_pos]
    · have hne : e.1 ≠ v := by
        intro heq
        exact hnd.1 (heq ▸ List.mem_map_of_mem Prod.fst h1)
      unfold assign_get
      rw [List.find?_cons_of_neg _ (by simpa using fun hc => hne hc)]
      exact ih hnd.2 h1

theorem assign_get_set_ne {asn : Assign} {v lit : Nat} {b : Option Bool}
    (hne : v ≠ lit) :
    assign_get (assign_set asn lit b) v = assign_get asn v := by
  induction asn with
  | nil => rfl
  | cons e t ih =>
    show assign_get ((if e.1 = lit then (e.1, b) else e) :: assign_set t lit b) v = _
    by_cases h3 : e.1 = v
    · have h2 : ¬ e.1 = lit := by
        intro hh
        exact hne (by rw [← h3, hh])
      rw [if_neg h2]
      unfold assign_get
      rw [List.find?_cons_of_pos _ (by simpa using h3),
        List.find?_cons_of_pos _ (by simpa using h3)]
    · by_cases h2 : e.1 = lit
      · rw [if_pos h2]
        unfold assign_get
        rw [List.find?_cons_of_neg _ (by simpa using h3),
          List.find?_cons_of_neg _ (by simpa using h3)]
        exact ih
      · rw [if_neg h2]
        unfold assign_get
        rw [List.find?_cons_of_neg _ (by simpa using h3),
          List.find?_cons_of_neg _ (by simpa using h3)]
        exact ih

theorem data_mem_filter_mono {d : List (Nat × Bool)} {p : Nat × Bool → Bool}
    {v : Nat} (h : data_mem (d.filter p) v = true) : data_mem d v = true := by
  unfold data_mem at h ⊢
  rw [List.any_eq_true] at h ⊢
  obtain ⟨vp, hvp, hb⟩ := h
  exact ⟨vp, List.mem_of_mem_filter hvp, hb⟩

theorem unit_propagate_go_noop (fuel : Nat) (cs : List Clause) (asn : Assign)
    (i : Nat) (hf : ∀ c ∈ cs, c.isUnit = false) :
    unit_propagate_go fuel cs asn i = (cs, asn) := by
  induction fuel generalizing i with
  | zero => rfl
  | succ fuel ih =>
    unfold unit_propagate_go
    by_cases hi : i < cs.length
    · rw [if_pos hi]
      have hstep : unit_propagate_step cs asn i = (cs, asn, i + 1) := by
        unfold unit_propagate_step
        rw [List.get?_eq_getElem?, List.getElem?_eq_getElem hi]
        simp [hf cs[i] (List.getElem_mem hi)]
      rw [hstep]
      exact ih (i + 1)
    · rw [if_neg hi]

theorem unit_propagate_noop (cs : List Clause) (asn : Assign)
    (hf : flags_false cs) : unit_propagate cs asn = (cs, asn) :=
  unit_propagate_go_noop cs.length cs asn 0 hf

theorem unit_propagate_go_succ (fuel : Nat) (cs : List Clause) (asn : Assign)
    (i : Nat) :
    unit_propagate_go (fuel + 1) cs asn i =
      if i < cs.length then
        (match unit_propagate_step cs asn i with
         | (cs2, asn2, i2) => unit_propagate_go fuel cs2 asn2 i2)
      else (cs, asn) := rfl

theorem unit_propagate_go_post : ∀ (fuel : Nat) (cs : List Clause) (asn : Assign)
    (i : Nat), cs.length - i ≤ fuel →
    (∀ j, j < i → (hj : j < cs.length) → cs[j].isUnit = true →
      ∀ v, (v, (none : Option Bool)) ∈ asn → data_mem cs[j].data v = false) →
    ∀ c ∈ (unit_propagate_go fuel cs asn i).1, c.isUnit = true →
      ∀ v, (v, (none : Option Bool)) ∈ (unit_propagate_go fuel cs asn i).2 →
        data_mem c.data v = false := by
  intro fuel
  induction fuel with
  | zero =>
    intro cs asn i hfuel hprefix c hc hcu v hv
    have hg1 : (unit_propagate_go 0 cs asn i).1 = cs := rfl
    have hg2 : (unit_propagate_go 0 cs asn i).2 = asn := rfl
    rw [hg1] at hc
    rw [hg2] at hv
    obtain ⟨j, hj, hjeq⟩ := List.mem_iff_getElem.mp hc
    exact hjeq ▸ hprefix j (by omega) hj (hjeq ▸ hcu) v hv
  | succ fuel ih =>
    intro cs asn i hfuel hprefix
    by_cases hi : i < cs.length
    · have hget : cs.get? i = some cs[i] := by
        rw [List.get?_eq_getElem?]
        exact List.getElem?_eq_getElem hi
      cases hflag : cs[i].isUnit
      · -- not flagged: move on
        have hstep : unit_propagate_step cs asn i = (cs, asn, i + 1) := by
          unfold unit_propagate_step
          rw [hget]
          simp [hflag]
        have hgo : unit_propagate_go (fuel + 1) cs asn i =
            unit_propagate_go fuel cs asn (i + 1) := by
          rw [unit_propagate_go_succ, if_pos hi, hstep]
        rw [hgo]
        refine ih cs asn (i + 1) (by omega) ?_
        intro j hj hjlen hju v hv
        rcases Nat.lt_or_ge j i with h2 | h2
        · exact hprefix j h2 hjlen hju v hv
        · have hji : j = i := by omega
          subst hji
          rw [hflag] at hju
          exact absurd hju (by decide)
      · -- flagged clause
        rcases hfind : asn.find? (fun e => e.2 == none && data_mem cs[i].data e.1)
          with - | e
        · -- no unassigned literal of the clause: move on
          have hstep : unit_propagate_step cs asn i = (cs, asn, i + 1) := by
            unfold unit_propagate_step
            rw [hget]
            simp [hflag, hfind]
          have hgo : unit_propagate_go (fuel + 1) cs asn i =
              unit_propagate_go fuel cs asn (i + 1) := by
            rw [unit_propagate_go_succ, if_pos hi, hstep]
          rw [hgo]
          refine ih cs asn (i + 1) (by omega) ?_
          intro j hj hjlen hju v hv
          rcases Nat.lt_or_ge j i with h2 | h2
          · exact hprefix j h2 hjlen hju v hv
          · have hji : j = i := by omega
            subst hji
            have hnone := List.find?_eq_none.mp hfind (v, none) hv
            simpa using hnone
        · -- process the clause: assign, delete, strike
          have hstep : unit_propagate_step cs asn i =
              (strike_complement e.1 (data_get cs[i].data e.1) (cs.eraseIdx i),
                assign_set asn e.1 (some (data_get cs[i].data e.1)), i) := by
            unfold unit_propagate_step
            rw [hget]
            simp [hflag, hfind]
          have hgo : unit_propagate_go (fuel + 1) cs asn i =
              unit_propagate_go fuel
                (strike_complement e.1 (data_get cs[i].data e.1) (cs.eraseIdx i))
                (assign_set asn e.1 (some (data_get cs[i].data e.1))) i := by
            rw [unit_propagate_go_succ, if_pos hi, hstep]
          rw [hgo]
          have hlen : (strike_complement e.1 (data_get cs[i].data e.1)
              (cs.eraseIdx i)).length = cs.length - 1 := by
            unfold strike_complement
            rw [List.length_map, List.length_eraseIdx, if_pos hi]
          refine ih _ _ i (by omega) ?_
          intro j hj hjlen hju v hv
          have hjcs : j < cs.length := by omega
          have hjer : j < (cs.eraseIdx i).length := by
            rw [List.length_eraseIdx, if_pos hi]
            omega
          have hcj : (strike_complement e.1 (data_get cs[i].data e.1)
              (cs.eraseIdx i))[j] =
              ⟨(cs[j].data.filter (fun vp =>
                  !(vp.1 == e.1 && vp.2 == !(data_get cs[i].data e.1)))),
                cs[j].isUnit⟩ := by
            unfold strike_complement
            rw [List.getElem_map]
            rw [List.getElem_eraseIdx_of_lt cs i j hjer hj]
          rw [hcj] at hju ⊢
          simp only at hju ⊢
          have hvasn := mem_none_assign_set hv
          have hbase := hprefix j hj hjcs hju v hvasn
          rcases hdm : data_mem (cs[j].data.filter (fun vp =>
              !(vp.1 == e.1 && vp.2 == !(data_get cs[i].data e.1)))) v
          · rfl
          · rw [data_mem_filter_mono hdm] at hbase
            exact absurd hbase (by decide)
    · intro c hc hcu v hv
      have hgo : unit_propagate_go (fuel + 1) cs asn i = (cs, asn) := by
        rw [unit_propagate_go_succ, if_neg hi]
      have hg1 : (unit_propagate_go (fuel + 1) cs asn i).1 = cs := by rw [hgo]
      have hg2 : (unit_propagate_go (fuel + 1) cs asn i).2 = asn := by rw [hgo]
      rw [hg1] at hc
      rw [hg2] at hv
      obtain ⟨j, hj, hjeq⟩ := List.mem_iff_getElem.mp hc
      exact hjeq ▸ hprefix j (by omega) hj (hjeq ▸ hcu) v hv

/-- **C6 counterexample.** After propagating the flagged unit clause `(x1)`,
the strike step shrinks `(~x1 + x2)` to `(x2)`, a clause with exactly one
unassigned literal — a unit clause — yet the single forward pass terminates
with it still in the formula (its `isUnit` flag was never set, so it is
never processed). -/
theorem C6_counterexample :
    unit_propagate [⟨[(1, true)], true⟩, ⟨[(1, false), (2, true)], false⟩]
        [(1, none), (2, none)] =
      ([⟨[(2, true)], false⟩], [(1, some true), (2, none)]) ∧
    semantic_unit ⟨[(2, true)], false⟩ [(1, some true), (2, none)] = true := by
  exact ⟨by decide, by decide⟩

/-- **C6 amended.** `unit_propagate` makes one forward pass, processing the
clauses flagged `isUnit`: it assigns the clause's first unassigned literal
the polarity value satisfying it, removes the clause, and strikes the
complementary literal from the other clauses.  When it returns, no remaining
clause is flagged as unit while containing an unassigned variable — but
clauses that merely became unit during the pass (never flagged) may remain. -/
theorem C6_amended (cs : List Clause) (asn : Assign) :
    ∀ c ∈ (unit_propagate cs asn).1, c.isUnit = true →
      ∀ v, (v, (none : Option Bool)) ∈ (unit_propagate cs asn).2 →
        data_mem c.data v = false :=
  unit_propagate_go_post cs.length cs asn 0 (by omega)
    (fun j hj => absurd hj (Nat.not_lt_zero j))

/-- Witness for C6 amended at a concrete flagged clause whose variable is
already assigned. -/
theorem C6_witness :
    ((⟨[(1, true)], true⟩ : Clause) ∈
      (unit_propagate [⟨[(1, true)], true⟩] [(1, some true), (2, none)]).1 ∧
     (2, (none : Option Bool)) ∈
      (unit_propagate [⟨[(1, true)], true⟩] [(1, some true), (2, none)]).2) ∧
    data_mem (Clause.mk [(1, true)] true).data 2 = false :=
  ⟨⟨by decide, by decide⟩,
    C6_amended [⟨[(1, true)], true⟩] [(1, some true), (2, none)]
      ⟨[(1, true)], true⟩ (by decide) (by decide) 2 (by decide)⟩

/-! ## DPLL search engine (C2, C4) -/

theorem decide_literal_none_iff (r : Nat) (asn : Assign) :
    decide_literal r asn = none ↔ ∀ e ∈ asn, e.2 ≠ none := by
  unfold decide_literal
  constructor
  · intro h e he hnone
    split at h
    · next hempty =>
      rw [List.isEmpty_iff, List.map_eq_nil_iff, List.filter_eq_nil_iff] at hempty
      exact hempty e he (by simp [hnone])
    · exact absurd h (by simp)
  · intro h
    rw [if_pos]
    rw [List.isEmpty_iff, List.map_eq_nil_iff, List.filter_eq_nil_iff]
    intro e he
    simp only [beq_iff_eq]
    exact fun hc => h e he hc

theorem decide_literal_some_mem {r : Nat} {asn : Assign} {xi : Nat}
    (h : decide_literal r asn = some xi) : (xi, (none : Option Bool)) ∈ asn := by
  unfold decide_literal at h
  split at h
  · exact absurd h (by simp)
  · next hne =>
    simp only [Option.some.injEq] at h
    have hlen : 0 < ((asn.filter (fun e => e.2 == none)).map Prod.fst).length :=
      List.length_pos.mpr (fun hc => hne (List.isEmpty_iff.mpr hc))
    have hmem : ((asn.filter (fun e => e.2 == none)).map Prod.fst).getD
        (r % ((asn.filter (fun e => e.2 == none)).map Prod.fst).length) 0 ∈
        (asn.filter (fun e => e.2 == none)).map Prod.fst := by
      rw [List.getD_eq_getElem?_getD,
        List.getElem?_eq_getElem (Nat.mod_lt _ hlen)]
      exact List.getElem_mem _
    rw [h] at hmem
    rw [List.mem_map] at hmem
    obtain ⟨e, he, heq⟩ := hmem
    have he2 := (List.mem_filter.mp he).2
    have : e = (xi, none) := by
      rcases e with ⟨v, x⟩
      simp only at heq
      subst heq
      simp only [beq_iff_eq] at he2
      rw [he2]
    exact this ▸ (List.mem_filter.mp he).1

theorem assign_get_set_self_or_none (asn : Assign) (v : Nat) (b : Option Bool) :
    assign_get (assign_set asn v b) v = b ∨
      assign_get (assign_set asn v b) v = none := by
  induction asn with
  | nil => exact Or.inr rfl
  | cons e t ih =>
    show assign_get ((if e.1 = v then (e.1, b) else e) :: assign_set t v b) v = b ∨
      assign_get ((if e.1 = v then (e.1, b) else e) :: assign_set t v b) v = none
    by_cases h : e.1 = v
    · rw [if_pos h]
      left
      exact assign_get_cons_pos h
    · rw [if_neg h, assign_get_cons_neg h]
      exact ih

theorem assign_get_set_self_of_mem {asn : Assign} {v : Nat}
    (hmem : v ∈ asn.map Prod.fst) (b : Option Bool) :
    assign_get (assign_set asn v b) v = b := by
  induction asn with
  | nil => simp at hmem
  | cons e t ih =>
    show assign_get ((if e.1 = v then (e.1, b) else e) :: assign_set t v b) v = b
    by_cases h : e.1 = v
    · rw [if_pos h]
      exact assign_get_cons_pos h
    · rw [if_neg h, assign_get_cons_neg h]
      rw [List.map_cons, List.mem_cons] at hmem
      exact ih (hmem.resolve_left (fun hc => h hc.symm))

theorem assign_set_set (asn : Assign) (v : Nat) (b1 b2 : Option Bool) :
    assign_set (assign_set asn v b1) v b2 = assign_set asn v b2 := by
  unfold assign_set
  rw [List.map_map]
  apply List.map_congr_left
  intro e he
  by_cases h : e.1 = v <;> simp [h]

theorem assign_set_of_not_mem {asn : Assign} {v : Nat}
    (h : v ∉ asn.map Prod.fst) (b : Option Bool) : assign_set asn v b = asn := by
  unfold assign_set
  have hpt : ∀ e ∈ asn, (if e.1 = v then (e.1, b) else e) = id e := by
    intro e he
    have hne : ¬ e.1 = v := by
      intro hc
      apply h
      rw [← hc]
      exact List.mem_map_of_mem Prod.fst he
    rw [if_neg hne]
    rfl
  rw [List.map_congr_left hpt, List.map_id]

theorem assign_set_none_id {asn : Assign} {v : Nat}
    (hnd : (asn.map Prod.fst).Nodup)
    (hmem : (v, (none : Option Bool)) ∈ asn) :
    assign_set asn v none = asn := by
  induction asn with
  | nil => rfl
  | cons e t ih =>
    rw [List.map_cons, List.nodup_cons] at hnd
    show (if e.1 = v then (e.1, none) else e) :: assign_set t v none = e :: t
    rcases List.mem_cons.mp hmem with h1 | h1
    · have he1 : e.1 = v := by rw [← h1]
      have he2 : e.2 = none := by rw [← h1]
      rw [if_pos he1]
      have hhead : (e.1, (none : Option Bool)) = e := by
        rcases e with ⟨a, x⟩
        simp only at he2
        rw [he2]
      rw [hhead]
      congr 1
      exact assign_set_of_not_mem (he1 ▸ hnd.1) none
    · have hvk : v ∈ t.map Prod.fst := List.mem_map_of_mem Prod.fst h1
      have hne : ¬ e.1 = v := fun hc => hnd.1 (hc ▸ hvk)
      rw [if_neg hne]
      congr 1
      exact ih hnd.2 h1

theorem none_count_cons (e : Nat × Option Bool) (t : Assign) :
    none_count (e :: t) = (if e.2 = none then 1 else 0) + none_count t := by
  unfold none_count
  rw [List.filter_cons]
  by_cases h : e.2 = none
  · rw [if_pos (by simpa using h), if_pos h]
    simp [Nat.add_comm]
  · rw [if_neg (by simpa using h), if_neg h]
    simp

theorem none_count_set_le (asn : Assign) (v : Nat) (b : Bool) :
    none_count (assign_set asn v (some b)) ≤ none_count asn := by
  induction asn with
  | nil => exact Nat.le_refl _
  | cons e t ih =>
    show none_count ((if e.1 = v then (e.1, some b) else e) :: assign_set t v (some b)) ≤ _
    rw [none_count_cons, none_count_cons]
    by_cases h : e.1 = v
    · rw [if_pos h]
      simp only
      rw [if_neg (by simp)]
      omega
    · rw [if_neg h]
      omega

theorem none_count_set_lt {asn : Assign} {v : Nat} (b : Bool)
    (hmem : (v, (none : Option Bool)) ∈ asn) :
    none_count (assign_set asn v (some b)) < none_count asn := by
  induction asn with
  | nil => simp at hmem
  | cons e t ih =>
    show none_count ((if e.1 = v then (e.1, some b) else e) :: assign_set t v (some b)) < _
    rw [none_count_cons, none_count_cons]
    rcases List.mem_cons.mp hmem with h1 | h1
    · have he1 : e.1 = v := by rw [← h1]
      have he2 : e.2 = none := by rw [← h1]
      rw [if_pos he1]
      simp only
      rw [if_neg (by simp), if_pos he2]
      have := none_count_set_le t v b
      omega
    · by_cases h : e.1 = v
      · rw [if_pos h]
        simp only
        rw [if_neg (by simp)]
        have := ih h1
        omega
      · rw [if_neg h]
        have := ih h1
        omega

theorem dpll_rec_eval_noop (snap : List Clause) (cs : List Clause) (asn : Assign)
    (b : Bool) (hf : flags_false cs) :
    dpll_rec_eval snap cs asn b = (dpll_pure_outcome snap asn b, cs, asn) := by
  induction snap generalizing b with
  | nil => rfl
  | cons c rest ih =>
    cases hv : clause_value c asn
    · simp only [dpll_rec_eval, dpll_pure_outcome, hv]
      exact ih b
    · simp only [dpll_rec_eval, dpll_pure_outcome, hv]
    · simp only [dpll_rec_eval, dpll_pure_outcome, hv]
      rw [unit_propagate_noop cs asn hf]
      by_cases hfl : clause_unit_flag c asn = true
      · rw [if_pos hfl]
        exact ih true
      · rw [if_neg hfl]
        exact ih true

theorem dpll_pure_outcome_eq_unsat (snap : List Clause) (asn : Assign) :
    ∀ b, dpll_pure_outcome snap asn b = .unsat ↔
      ∃ c ∈ snap, clause_value c asn = UNSAT := by
  induction snap with
  | nil =>
    intro b
    cases b <;> simp [dpll_pure_outcome]
  | cons c rest ih =>
    intro b
    have hstep : dpll_pure_outcome (c :: rest) asn b =
        (match clause_value c asn with
         | UNSAT => EvalOutcome.unsat
         | UNDECIDED => dpll_pure_outcome rest asn true
         | SAT => dpll_pure_outcome rest asn b) := rfl
    rw [hstep]
    cases hv : clause_value c asn
    case SAT =>
      show dpll_pure_outcome rest asn b = .unsat ↔ _
      rw [ih b]
      constructor
      · rintro ⟨c2, hc2, hv2⟩
        exact ⟨c2, List.mem_cons_of_mem c hc2, hv2⟩
      · rintro ⟨c2, hc2, hv2⟩
        rcases List.mem_cons.mp hc2 with h2 | h2
        · subst h2
          rw [hv] at hv2
          exact absurd hv2 (by decide)
        · exact ⟨c2, h2, hv2⟩
    case UNSAT =>
      show EvalOutcome.unsat = .unsat ↔ _
      constructor
      · intro _
        exact ⟨c, List.mem_cons_self c rest, hv⟩
      · intro _
        rfl
    case UNDECIDED =>
      show dpll_pure_outcome rest asn true = .unsat ↔ _
      rw [ih true]
      constructor
      · rintro ⟨c2, hc2, hv2⟩
        exact ⟨c2, List.mem_cons_of_mem c hc2, hv2⟩
      · rintro ⟨c2, hc2, hv2⟩
        rcases List.mem_cons.mp hc2 with h2 | h2
        · subst h2
          rw [hv] at hv2
          exact absurd hv2 (by decide)
        · exact ⟨c2, h2, hv2⟩

theorem dpll_pure_outcome_eq_allsat (snap : List Clause) (asn : Assign) :
    ∀ b, dpll_pure_outcome snap asn b = .allsat ↔
      b = false ∧ ∀ c ∈ snap, clause_value c asn = SAT := by
  induction snap with
  | nil =>
    intro b
    cases b <;> simp [dpll_pure_outcome]
  | cons c rest ih =>
    intro b
    have hstep : dpll_pure_outcome (c :: rest) asn b =
        (match clause_value c asn with
         | UNSAT => EvalOutcome.unsat
         | UNDECIDED => dpll_pure_outcome rest asn true
         | SAT => dpll_pure_outcome rest asn b) := rfl
    rw [hstep]
    cases hv : clause_value c asn
    case SAT =>
      show dpll_pure_outcome rest asn b = .allsat ↔ _
      rw [ih b]
      constructor
      · rintro ⟨hb, hall⟩
        refine ⟨hb, ?_⟩
        intro c2 hc2
        rcases List.mem_cons.mp hc2 with h2 | h2
        · rw [h2]
          exact hv
        · exact hall c2 h2
      · rintro ⟨hb, hall⟩
        exact ⟨hb, fun c2 hc2 => hall c2 (List.mem_cons_of_mem c hc2)⟩
    case UNSAT =>
      show EvalOutcome.unsat = .allsat ↔ _
      constructor
      · intro h
        exact absurd h (by decide)
      · rintro ⟨-, hall⟩
        have := hall c (List.mem_cons_self c rest)
        rw [hv] at this
        exact absurd this (by decide)
    case UNDECIDED =>
      show dpll_pure_outcome rest asn true = .allsat ↔ _
      rw [ih true]
      constructor
      · rintro ⟨hb, -⟩
        exact absurd hb (by decide)
      · rintro ⟨-, hall⟩
        have := hall c (List.mem_cons_self c rest)
        rw [hv] at this
        exact absurd this (by decide)

theorem dpll_pure_outcome_undecided_exists : ∀ (snap : List Clause) (asn : Assign)
    (b : Bool), dpll_pure_outcome snap asn b = .undecided →
      b = true ∨ ∃ c ∈ snap, clause_value c asn = UNDECIDED := by
  intro snap
  induction snap with
  | nil =>
    intro asn b h
    cases b
    · simp [dpll_pure_outcome] at h
    · exact Or.inl rfl
  | cons c rest ih =>
    intro asn b h
    cases hv : clause_value c asn <;> rw [dpll_pure_outcome, hv] at h
    · rcases ih asn b h with h2 | ⟨c2, hc2, hv2⟩
      · exact Or.inl h2
      · exact Or.inr ⟨c2, List.mem_cons_of_mem c hc2, hv2⟩
    · have h2 : EvalOutcome.unsat = EvalOutcome.undecided := h
      exact absurd h2 (by decide)
    · exact Or.inr ⟨c, List.mem_cons_self c rest, hv⟩

theorem agrees_unsat {A : Nat → Bool} {asn : Assign} {c : Clause}
    (h : clause_value c asn = UNSAT) (ha : agrees A asn) :
    clause_sat_b A c = false := by
  rw [clause_value_eq_UNSAT] at h
  unfold clause_sat_b
  rw [List.any_eq_false]
  intro vp hvp
  have hA := ha vp.1 (!vp.2) (h vp hvp)
  rw [hA]
  cases hp : vp.2 <;> decide

theorem agrees_sat {A : Nat → Bool} {asn : Assign} {c : Clause}
    (h : clause_value c asn = SAT) (ha : agrees A asn) :
    clause_sat_b A c = true := by
  rw [clause_value_eq_SAT] at h
  obtain ⟨vp, hvp, hget⟩ := h
  unfold clause_sat_b
  rw [List.any_eq_true]
  exact ⟨vp, hvp, by rw [ha vp.1 vp.2 hget]; exact beq_self_eq_true _⟩

theorem agrees_completion (asn : Assign) :
    agrees (fun v => (assign_get asn v).getD false) asn := by
  intro v b hget
  show (assign_get asn v).getD false = b
  rw [hget]
  rfl

theorem value_ne_unsat {A : Nat → Bool} {asn : Assign} {c : Clause}
    (ha : agrees A asn) (hc : clause_sat_b A c = true) :
    clause_value c asn ≠ UNSAT := by
  intro h
  rw [agrees_unsat h ha] at hc
  exact absurd hc (by decide)

theorem agrees_assign_set {A : Nat → Bool} {asn : Assign} {v : Nat} {b : Bool}
    (ha : agrees A asn) (hb : A v = b) :
    agrees A (assign_set asn v (some b)) := by
  intro u x hget
  by_cases h : u = v
  · subst h
    rcases assign_get_set_self_or_none asn u (some b) with h2 | h2 <;> rw [h2] at hget
    · rw [← Option.some.inj hget]
      exact hb
    · exact absurd hget (by simp)
  · rw [assign_get_set_ne h] at hget
    exact ha u x hget

theorem all_undecided_keys (cs : List Clause) (h : cs.isEmpty = false) :
    (all_undecided cs).map Prod.fst = List.range' 1 (find_maximum_literal cs) := by
  unfold all_undecided
  rw [if_neg (by simp [h])]
  rw [List.map_map]
  exact List.map_id _

theorem all_undecided_keys_nodup (cs : List Clause) :
    ((all_undecided cs).map Prod.fst).Nodup := by
  by_cases h : cs.isEmpty
  · unfold all_undecided
    rw [if_pos h]
    exact List.nodup_nil
  · rw [all_undecided_keys cs (by simpa using h)]
    exact List.nodup_range' _ _

theorem assign_set_isEmpty (asn : Assign) (v : Nat) (b : Option Bool) :
    (assign_set asn v b).isEmpty = asn.isEmpty := by
  cases asn <;> rfl

/-- The initialisation step of a recursive `dpll_rec` call made with the
assignment produced by a decision: it is the identity, because a decision
can only be made on a nonempty assignment dict, except in the degenerate
situation where the whole dict is empty to begin with, in which case every
value in sight is the empty dict. -/
theorem init_set_eq (cs : List Clause) (asn0 : Assign) (xi : Nat) (b : Option Bool) :
    (if (assign_set (if asn0.isEmpty then all_undecided cs else asn0) xi b).isEmpty
     then all_undecided cs
     else assign_set (if asn0.isEmpty then all_undecided cs else asn0) xi b) =
      assign_set (if asn0.isEmpty then all_undecided cs else asn0) xi b := by
  by_cases h : (assign_set (if asn0.isEmpty then all_undecided cs else asn0) xi b).isEmpty
  · rw [if_pos h]
    rw [assign_set_isEmpty] at h
    by_cases h0 : asn0.isEmpty
    · rw [if_pos h0] at h ⊢
      rw [List.isEmpty_iff] at h
      rw [h]
      rfl
    · rw [if_neg h0] at h
      exact absurd h (by simpa using h0)
  · rw [if_neg h]

theorem dpll_rec_succ (σ : Nat → Nat) (fuel : Nat) (cs : List Clause)
    (asn0 : Assign) (k : Nat) :
    dpll_rec σ (fuel + 1) cs asn0 k =
      (if cs.isEmpty
       then ((if asn0.isEmpty then all_undecided cs else asn0), cs,
             (if asn0.isEmpty then all_undecided cs else asn0), k)
       else
        match dpll_rec_eval cs cs (if asn0.isEmpty then all_undecided cs else asn0)
            false with
        | (.unsat, cs1, asn1) => ([], cs1, asn1, k)
        | (.allsat, cs1, asn1) => (asn1, cs1, asn1, k)
        | (.undecided, cs1, asn1) =>
          match decide_literal (σ k) asn1 with
          | none => ([], cs1, asn1, k + 1)
          | some xi =>
            if xi = 0 then ([], cs1, asn1, k + 1)
            else
              match dpll_rec σ fuel cs1 (assign_set asn1 xi (some true)) (k + 1) with
              | (r1, cs2, asn3, k1) =>
                if !r1.isEmpty then (r1, cs2, asn3, k1)
                else
                  match dpll_rec σ fuel cs2 (assign_set asn3 xi (some false)) k1 with
                  | (r2, cs3, asn5, k2) =>
                    if !r2.isEmpty then (r2, cs3, asn5, k2)
                    else ([], cs3, assign_set asn5 xi none, k2)) := rfl

/-- Reduced body of `dpll_rec` at successor fuel when the snapshot scan is
UNDECIDED. -/
theorem dpll_rec_succ_undec (σ : Nat → Nat) (fuel : Nat) (cs : List Clause)
    (asn0 : Assign) (k : Nat) (hcs : ¬cs.isEmpty = true) (hfl : flags_false cs)
    (ho : dpll_pure_outcome cs (if asn0.isEmpty then all_undecided cs else asn0)
      false = .undecided) :
    dpll_rec σ (fuel + 1) cs asn0 k =
      (match decide_literal (σ k) (if asn0.isEmpty then all_undecided cs else asn0) with
       | none => ([], cs, (if asn0.isEmpty then all_undecided cs else asn0), k + 1)
       | some xi =>
         if xi = 0 then ([], cs, (if asn0.isEmpty then all_undecided cs else asn0), k + 1)
         else
           match dpll_rec σ fuel cs
               (assign_set (if asn0.isEmpty then all_undecided cs else asn0) xi
                 (some true)) (k + 1) with
           | (r1, cs2, asn3, k1) =>
             if !r1.isEmpty then (r1, cs2, asn3, k1)
             else
               match dpll_rec σ fuel cs2 (assign_set asn3 xi (some false)) k1 with
               | (r2, cs3, asn5, k2) =>
                 if !r2.isEmpty then (r2, cs3, asn5, k2)
                 else ([], cs3, assign_set asn5 xi none, k2)) := by
  rw [dpll_rec_succ, if_neg hcs,
    dpll_rec_eval_noop cs cs (if asn0.isEmpty then all_undecided cs else asn0) false hfl,
    ho]

theorem dpll_rec_spec (σ : Nat → Nat) : ∀ (fuel : Nat) (cs : List Clause)
    (asn0 : Assign) (k : Nat), flags_false cs → (asn0.map Prod.fst).Nodup →
    (dpll_rec σ fuel cs asn0 k).2.1 = cs ∧
    ((dpll_rec σ fuel cs asn0 k).1 = [] →
      (dpll_rec σ fuel cs asn0 k).2.2.1 =
        (if asn0.isEmpty then all_undecided cs else asn0)) ∧
    ((dpll_rec σ fuel cs asn0 k).1 ≠ [] →
      (dpll_rec σ fuel cs asn0 k).1 = (dpll_rec σ fuel cs asn0 k).2.2.1 ∧
      ∀ c ∈ cs, clause_value c (dpll_rec σ fuel cs asn0 k).1 = SAT) := by
  intro fuel
  induction fuel with
  | zero =>
    intro cs asn0 k hfl hnd
    refine ⟨rfl, fun _ => rfl, fun hne => absurd rfl hne⟩
  | succ fuel ih =>
    intro cs asn0 k hfl hnd
    have hnd1 : ((if asn0.isEmpty then all_undecided cs else asn0).map Prod.fst).Nodup := by
      by_cases h0 : asn0.isEmpty
      · rw [if_pos h0]
        exact all_undecided_keys_nodup cs
      · rw [if_neg h0]
        exact hnd
    by_cases hcs : cs.isEmpty
    · have hrec : dpll_rec σ (fuel + 1) cs asn0 k =
          ((if asn0.isEmpty then all_undecided cs else asn0), cs,
           (if asn0.isEmpty then all_undecided cs else asn0), k) := by
        rw [dpll_rec_succ, if_pos hcs]
      rw [hrec]
      have hcsnil : cs = [] := List.isEmpty_iff.mp hcs
      refine ⟨rfl, fun _ => rfl, fun hne => ⟨rfl, ?_⟩⟩
      intro c hc
      rw [hcsnil] at hc
      simp at hc
    · cases ho : dpll_pure_outcome cs (if asn0.isEmpty then all_undecided cs else asn0) false
      · -- some clause UNSAT under the initial assignment
        have hrec : dpll_rec σ (fuel + 1) cs asn0 k =
            ([], cs, (if asn0.isEmpty then all_undecided cs else asn0), k) := by
          rw [dpll_rec_succ, if_neg hcs,
            dpll_rec_eval_noop cs cs (if asn0.isEmpty then all_undecided cs else asn0) false hfl,
            ho]
        rw [hrec]
        refine ⟨rfl, fun _ => rfl, fun hne => absurd rfl hne⟩
      · -- every clause SAT under the initial assignment
        have hrec : dpll_rec σ (fuel + 1) cs asn0 k =
            ((if asn0.isEmpty then all_undecided cs else asn0), cs,
             (if asn0.isEmpty then all_undecided cs else asn0), k) := by
          rw [dpll_rec_succ, if_neg hcs,
            dpll_rec_eval_noop cs cs (if asn0.isEmpty then all_undecided cs else asn0) false hfl,
            ho]
        rw [hrec]
        refine ⟨rfl, fun _ => rfl, fun hne => ⟨rfl, ?_⟩⟩
        intro c hc
        exact ((dpll_pure_outcome_eq_allsat cs _ false).mp ho).2 c hc
      · -- some clause undecided: decide and branch
        cases hxi : decide_literal (σ k) (if asn0.isEmpty then all_undecided cs else asn0)
        · have hrec : dpll_rec σ (fuel + 1) cs asn0 k =
              ([], cs, (if asn0.isEmpty then all_undecided cs else asn0), k + 1) := by
            rw [dpll_rec_succ_undec σ fuel cs asn0 k hcs hfl ho, hxi]
          rw [hrec]
          refine ⟨rfl, fun _ => rfl, fun hne => absurd rfl hne⟩
        · next xi =>
          by_cases hx0 : xi = 0
          · subst hx0
            have hrec : dpll_rec σ (fuel + 1) cs asn0 k =
                ([], cs, (if asn0.isEmpty then all_undecided cs else asn0), k + 1) := by
              rw [dpll_rec_succ_undec σ fuel cs asn0 k hcs hfl ho, hxi]
              rfl
            rw [hrec]
            refine ⟨rfl, fun _ => rfl, fun hne => absurd rfl hne⟩
          · rcases h1 : dpll_rec σ fuel cs
                (assign_set (if asn0.isEmpty then all_undecided cs else asn0) xi (some true))
                (k + 1) with ⟨r1, cs2, asn3, k1⟩
            have IH1 := ih cs
              (assign_set (if asn0.isEmpty then all_undecided cs else asn0) xi (some true))
              (k + 1) hfl (by rw [keys_assign_set]; exact hnd1)
            rw [h1] at IH1
            simp only at IH1
            have hcs2 : cs2 = cs := IH1.1
            have hbody : dpll_rec σ (fuel + 1) cs asn0 k =
                (if xi = 0
                 then ([], cs, (if asn0.isEmpty then all_undecided cs else asn0), k + 1)
                 else
                   match dpll_rec σ fuel cs
                       (assign_set (if asn0.isEmpty then all_undecided cs else asn0) xi
                         (some true)) (k + 1) with
                   | (r1, cs2, asn3, k1) =>
                     if !r1.isEmpty then (r1, cs2, asn3, k1)
                     else
                       match dpll_rec σ fuel cs2 (assign_set asn3 xi (some false)) k1 with
                       | (r2, cs3, asn5, k2) =>
                         if !r2.isEmpty then (r2, cs3, asn5, k2)
                         else ([], cs3, assign_set asn5 xi none, k2)) := by
              rw [dpll_rec_succ_undec σ fuel cs asn0 k hcs hfl ho, hxi]
            rw [if_neg hx0, h1] at hbody
            by_cases hr1 : r1.isEmpty
            · -- first branch failed
              have hr1nil : r1 = [] := List.isEmpty_iff.mp hr1
              subst hr1nil
              have hasn3 : asn3 =
                  assign_set (if asn0.isEmpty then all_undecided cs else asn0) xi
                    (some true) := by
                have h3 := IH1.2.1 rfl
                rw [h3, init_set_eq]
              have hbody2 : dpll_rec σ (fuel + 1) cs asn0 k =
                  (match dpll_rec σ fuel cs2 (assign_set asn3 xi (some false)) k1 with
                   | (r2, cs3, asn5, k2) =>
                     if !r2.isEmpty then (r2, cs3, asn5, k2)
                     else ([], cs3, assign_set asn5 xi none, k2)) := hbody
              rcases h2 : dpll_rec σ fuel cs2 (assign_set asn3 xi (some false)) k1
                with ⟨r2, cs3, asn5, k2⟩
              have IH2 := ih cs2 (assign_set asn3 xi (some false)) k1
                (by rw [hcs2]; exact hfl)
                (by rw [keys_assign_set, hasn3, keys_assign_set]; exact hnd1)
              rw [h2] at IH2
              simp only at IH2
              have hset45 : assign_set asn3 xi (some false) =
                  assign_set (if asn0.isEmpty then all_undecided cs else asn0) xi
                    (some false) := by
                rw [hasn3, assign_set_set]
              rw [h2] at hbody2
              by_cases hr2 : r2.isEmpty
              · have hr2nil : r2 = [] := List.isEmpty_iff.mp hr2
                subst hr2nil
                have hrec : dpll_rec σ (fuel + 1) cs asn0 k =
                    ([], cs3, assign_set asn5 xi none, k2) := hbody2
                rw [hrec]
                refine ⟨by rw [IH2.1, hcs2], fun _ => ?_, fun hne => absurd rfl hne⟩
                have hasn5 : asn5 =
                    assign_set (if asn0.isEmpty then all_undecided cs else asn0) xi
                      (some false) := by
                  have h5 := IH2.2.1 rfl
                  rw [h5, hset45, hcs2, init_set_eq]
                show assign_set asn5 xi none = _
                rw [hasn5, assign_set_set]
                exact assign_set_none_id hnd1 (decide_literal_some_mem hxi)
              · have hr2t : r2.isEmpty = false := by
                  rcases h : r2.isEmpty
                  · rfl
                  · exact absurd h hr2
                have hbody3 : dpll_rec σ (fuel + 1) cs asn0 k =
                    (if !r2.isEmpty then (r2, cs3, asn5, k2)
                     else ([], cs3, assign_set asn5 xi none, k2)) := hbody2
                rw [hr2t] at hbody3
                have hrec : dpll_rec σ (fuel + 1) cs asn0 k = (r2, cs3, asn5, k2) :=
                  hbody3
                rw [hrec]
                have hne2 : r2 ≠ [] := fun hc => hr2 (by rw [hc]; rfl)
                have hc2 := IH2.2.2 hne2
                refine ⟨by rw [IH2.1, hcs2], fun h0 => absurd h0 hne2, fun _ => ⟨hc2.1, ?_⟩⟩
                intro c hc
                exact hc2.2 c (by rw [hcs2]; exact hc)
            · have hr1t : r1.isEmpty = false := by
                rcases h : r1.isEmpty
                · rfl
                · exact absurd h hr1
              have hbody2 : dpll_rec σ (fuel + 1) cs asn0 k =
                  (if !r1.isEmpty then (r1, cs2, asn3, k1)
                   else
                     match dpll_rec σ fuel cs2 (assign_set asn3 xi (some false)) k1 with
                     | (r2, cs3, asn5, k2) =>
                       if !r2.isEmpty then (r2, cs3, asn5, k2)
                       else ([], cs3, assign_set asn5 xi none, k2)) := hbody
              rw [hr1t] at hbody2
              have hrec : dpll_rec σ (fuel + 1) cs asn0 k = (r1, cs2, asn3, k1) :=
                hbody2
              rw [hrec]
              have hne1 : r1 ≠ [] := fun hc => hr1 (by rw [hc]; rfl)
              have hc1 := IH1.2.2 hne1
              exact ⟨hcs2, fun h0 => absurd h0 hne1, fun _ => ⟨hc1.1, hc1.2⟩⟩

/-! ## Soundness of the iterative engine -/

theorem dpll_iter_scan_cons (c : Clause) (rest : List Clause) (asn : Assign)
    (acc : Bool) :
    dpll_iter_scan (c :: rest) asn acc =
      (match clause_value c asn with
       | UNSAT => (true, acc)
       | UNDECIDED => dpll_iter_scan rest asn true
       | SAT => dpll_iter_scan rest asn acc) := rfl

theorem dpll_iter_scan_acc : ∀ (cs : List Clause) (asn : Assign),
    (dpll_iter_scan cs asn true).2 = true := by
  intro cs
  induction cs with
  | nil => intro asn; rfl
  | cons c rest ih =>
    intro asn
    rw [dpll_iter_scan_cons]
    cases hv : clause_value c asn
    · exact ih asn
    · rfl
    · exact ih asn

theorem dpll_iter_scan_all_sat : ∀ (cs : List Clause) (asn : Assign) (acc : Bool),
    dpll_iter_scan cs asn acc = (false, false) →
    ∀ c ∈ cs, clause_value c asn = SAT := by
  intro cs
  induction cs with
  | nil =>
    intro asn acc h c hc
    simp at hc
  | cons c0 rest ih =>
    intro asn acc h c hc
    rw [dpll_iter_scan_cons] at h
    cases hv : clause_value c0 asn <;> rw [hv] at h
    · -- SAT head
      have h2 : dpll_iter_scan rest asn acc = (false, false) := h
      rcases List.mem_cons.mp hc with h3 | h3
      · rw [h3]
        exact hv
      · exact ih asn acc h2 c h3
    · -- UNSAT head: scan reports true
      have h2 : ((true, acc) : Bool × Bool) = (false, false) := h
      have h3 : (true : Bool) = false := congrArg Prod.fst h2
      exact absurd h3 (by decide)
    · -- UNDECIDED head: accumulator is stuck at true
      have h2 : dpll_iter_scan rest asn true = (false, false) := h
      have h3 := dpll_iter_scan_acc rest asn
      rw [h2] at h3
      exact absurd h3 (by decide)

theorem dpll_iterative_go_cons (σ : Nat → Nat) (fuel : Nat) (cs : List Clause)
    (cur : Assign) (rest : List Assign) (k : Nat) :
    dpll_iterative_go σ (fuel + 1) cs (cur :: rest) k =
      (match dpll_iter_scan cs cur false with
       | (true, _) => dpll_iterative_go σ fuel cs rest k
       | (false, false) => cur
       | (false, true) =>
         match decide_literal (σ k) cur with
         | none => []
         | some xi =>
           if xi = 0 then []
           else
             dpll_iterative_go σ fuel cs
               (assign_set cur xi (some false) :: assign_set cur xi (some true) :: rest)
               (k + 1)) := rfl

theorem dpll_iterative_go_sound (σ : Nat → Nat) (cs : List Clause) :
    ∀ (fuel : Nat) (stack : List Assign) (k : Nat),
      dpll_iterative_go σ fuel cs stack k ≠ [] →
      ∀ c ∈ cs, clause_value c (dpll_iterative_go σ fuel cs stack k) = SAT := by
  intro fuel
  induction fuel with
  | zero =>
    intro stack k hne
    exact absurd rfl hne
  | succ fuel ih =>
    intro stack k hne
    cases stack with
    | nil => exact absurd rfl hne
    | cons cur rest =>
      rcases hsc : dpll_iter_scan cs cur false with ⟨b1, b2⟩
      cases b1
      · cases b2
        · -- all clauses SAT: return cur
          have hval : dpll_iterative_go σ (fuel + 1) cs (cur :: rest) k = cur := by
            rw [dpll_iterative_go_cons, hsc]
          rw [hval] at hne ⊢
          intro c hc
          exact dpll_iter_scan_all_sat cs cur false hsc c hc
        · -- some clause undecided: decide and push
          have hval0 : dpll_iterative_go σ (fuel + 1) cs (cur :: rest) k =
              (match decide_literal (σ k) cur with
               | none => ([] : Assign)
               | some xi =>
                 if xi = 0 then []
                 else
                   dpll_iterative_go σ fuel cs
                     (assign_set cur xi (some false) ::
                       assign_set cur xi (some true) :: rest) (k + 1)) := by
            rw [dpll_iterative_go_cons, hsc]
          cases hxi : decide_literal (σ k) cur
          · rw [hxi] at hval0
            have hval : dpll_iterative_go σ (fuel + 1) cs (cur :: rest) k = [] := hval0
            exact absurd hval hne
          · next xi =>
            rw [hxi] at hval0
            by_cases hx0 : xi = 0
            · subst hx0
              have hval : dpll_iterative_go σ (fuel + 1) cs (cur :: rest) k = [] := hval0
              exact absurd hval hne
            · have hval1 : dpll_iterative_go σ (fuel + 1) cs (cur :: rest) k =
                  (if xi = 0 then []
                   else
                     dpll_iterative_go σ fuel cs
                       (assign_set cur xi (some false) ::
                         assign_set cur xi (some true) :: rest) (k + 1)) := hval0
              rw [if_neg hx0] at hval1
              rw [hval1] at hne ⊢
              exact ih _ (k + 1) hne
      · -- an UNSAT clause: pop and continue
        have hval : dpll_iterative_go σ (fuel + 1) cs (cur :: rest) k =
            dpll_iterative_go σ fuel cs rest k := by
          rw [dpll_iterative_go_cons, hsc]
        rw [hval] at hne ⊢
        exact ih rest k hne

theorem dpll_iterative_def (σ : Nat → Nat) (fuel : Nat) (cs : List Clause) :
    dpll_iterative σ fuel cs =
      (if cs.isEmpty then []
       else
         match decide_literal (σ 0) (all_undecided cs) with
         | none => []
         | some xi =>
           if xi = 0 then []
           else
             dpll_iterative_go σ fuel cs
               [assign_set (all_undecided cs) xi (some false),
                assign_set (all_undecided cs) xi (some true)] 1) := rfl

theorem dpll_iterative_sound (σ : Nat → Nat) (fuel : Nat) (cs : List Clause)
    (hne : dpll_iterative σ fuel cs ≠ []) :
    ∀ c ∈ cs, clause_value c (dpll_iterative σ fuel cs) = SAT := by
  by_cases hcs : cs.isEmpty
  · exfalso
    apply hne
    rw [dpll_iterative_def, if_pos hcs]
  · have h0 : dpll_iterative σ fuel cs =
        (match decide_literal (σ 0) (all_undecided cs) with
         | none => ([] : Assign)
         | some xi =>
           if xi = 0 then []
           else
             dpll_iterative_go σ fuel cs
               [assign_set (all_undecided cs) xi (some false),
                assign_set (all_undecided cs) xi (some true)] 1) := by
      rw [dpll_iterative_def, if_neg hcs]
    cases hxi : decide_literal (σ 0) (all_undecided cs)
    · rw [hxi] at h0
      have h1 : dpll_iterative σ fuel cs = [] := h0
      exact absurd h1 hne
    · next xi =>
      rw [hxi] at h0
      by_cases hx0 : xi = 0
      · subst hx0
        have h1 : dpll_iterative σ fuel cs = [] := h0
        exact absurd h1 hne
      · have h1 : dpll_iterative σ fuel cs =
            (if xi = 0 then []
             else
               dpll_iterative_go σ fuel cs
                 [assign_set (all_undecided cs) xi (some false),
                  assign_set (all_undecided cs) xi (some true)] 1) := h0
        rw [if_neg hx0] at h1
        rw [h1] at hne ⊢
        exact dpll_iterative_go_sound σ cs fuel _ 1 hne

/-- **C2** Whenever the search engine (`dpll_rec`, entered as by `dpll()`
with no previous assignments, or `dpll_iterative`) returns a non-empty
assignment — its SAT verdict — every clause of the input formula evaluates
to SAT under that assignment.  The input clause list has all `isUnit` flags
clear, as every clause list built by the program's only clause constructor
does. -/
theorem C2_engine_soundness (σ1 σ2 : Nat → Nat) (fuel1 fuel2 : Nat)
    (cs : List Clause) (hfl : flags_false cs) :
    (dpll_rec_entry σ1 fuel1 cs ≠ [] →
      ∀ c ∈ cs, clause_value c (dpll_rec_entry σ1 fuel1 cs) = SAT) ∧
    (dpll_iterative σ2 fuel2 cs ≠ [] →
      ∀ c ∈ cs, clause_value c (dpll_iterative σ2 fuel2 cs) = SAT) := by
  constructor
  · intro hne
    have hs := dpll_rec_spec σ1 fuel1 cs [] 0 hfl (by simp)
    exact fun c hc => (hs.2.2 hne).2 c hc
  · exact dpll_iterative_sound σ2 fuel2 cs

theorem C2_witness :
    flags_false [Clause.mk [(1, true)] false] ∧
    ((dpll_rec_entry (fun _ => 0) 2 [Clause.mk [(1, true)] false] ≠ [] →
        ∀ c ∈ [Clause.mk [(1, true)] false],
          clause_value c (dpll_rec_entry (fun _ => 0) 2 [Clause.mk [(1, true)] false]) =
            SAT) ∧
     (dpll_iterative (fun _ => 0) 2 [Clause.mk [(1, true)] false] ≠ [] →
        ∀ c ∈ [Clause.mk [(1, true)] false],
          clause_value c (dpll_iterative (fun _ => 0) 2 [Clause.mk [(1, true)] false]) =
            SAT)) :=
  ⟨by decide, C2_engine_soundness (fun _ => 0) (fun _ => 0) 2 2 _ (by decide)⟩

/-! ## Completeness prerequisites -/

theorem dpll_rec_nil_eq (σ : Nat → Nat) (fuel : Nat) (cs : List Clause) (k : Nat) :
    dpll_rec σ fuel cs [] k = dpll_rec σ fuel cs (all_undecided cs) k := by
  have hself : (if (all_undecided cs).isEmpty then all_undecided cs else all_undecided cs)
      = all_undecided cs := ite_self _
  have hnil : (if ([] : Assign).isEmpty then all_undecided cs else ([] : Assign))
      = all_undecided cs := rfl
  cases fuel with
  | zero =>
    show ([], cs, if ([] : Assign).isEmpty then all_undecided cs else ([] : Assign), k)
      = ([], cs, if (all_undecided cs).isEmpty then all_undecided cs
          else all_undecided cs, k)
    rw [hself, hnil]
  | succ fuel =>
    rw [dpll_rec_succ, dpll_rec_succ, hself, hnil]

theorem agrees_all_undecided (A : Nat → Bool) (cs : List Clause) :
    agrees A (all_undecided cs) := by
  intro v b hget
  exfalso
  unfold assign_get at hget
  cases hf : (all_undecided cs).find? (fun e => e.1 == v) with
  | none =>
    rw [hf] at hget
    have h2 : (none : Option Bool) = some b := hget
    exact Option.noConfusion h2
  | some e =>
    rw [hf] at hget
    have hget2 : e.2 = some b := hget
    have he := List.mem_of_find?_eq_some hf
    have he2 : e.2 = none := by
      unfold all_undecided at he
      by_cases hcs : cs.isEmpty
      · rw [if_pos hcs] at he
        simp at he
      · rw [if_neg hcs] at he
        rcases List.mem_map.mp he with ⟨i, _, hie⟩
        rw [← hie]
    rw [he2] at hget2
    exact Option.noConfusion hget2

theorem none_count_all_undecided (cs : List Clause) (h : cs.isEmpty = false) :
    none_count (all_undecided cs) = find_maximum_literal cs := by
  unfold none_count all_undecided
  rw [if_neg (by simp [h])]
  have hall : ∀ e ∈ (List.range' 1 (find_maximum_literal cs)).map
      (fun i => (i, (none : Option Bool))), (fun e => e.2 == none) e = true := by
    intro e he
    rcases List.mem_map.mp he with ⟨i, _, hie⟩
    rw [← hie]
    rfl
  rw [List.filter_eq_self.mpr hall, List.length_map, List.length_range']

theorem assign_get_mem : ∀ {asn : Assign} {v : Nat},
    v ∈ asn.map Prod.fst → (v, assign_get asn v) ∈ asn := by
  intro asn
  induction asn with
  | nil =>
    intro v h
    simp at h
  | cons e t ih =>
    intro v h
    by_cases h2 : e.1 = v
    · have hg : assign_get (e :: t) v = e.2 := by
        unfold assign_get
        rw [@List.find?_cons_of_pos _ (fun x => x.1 == v) e t (by simp [h2])]
      rw [hg, ← h2, Prod.mk.eta]
      exact List.mem_cons_self e t
    · have hg : assign_get (e :: t) v = assign_get t v := by
        unfold assign_get
        rw [@List.find?_cons_of_neg _ (fun x => x.1 == v) e t (by simp [h2])]
      rw [hg]
      refine List.mem_cons_of_mem e (ih ?_)
      rw [List.map_cons] at h
      rcases List.mem_cons.mp h with h3 | h3
      · exact absurd h3.symm h2
      · exact h3

theorem one_le_find_maximum_literal {cs : List Clause} (hwf : wf_cnf cs)
    (hcs : cs ≠ []) : 1 ≤ find_maximum_literal cs := by
  rcases cs with _ | ⟨c, rest⟩
  · exact absurd rfl hcs
  · have h1 := hwf c (List.mem_cons_self c rest)
    rcases hd : c.data with _ | ⟨vp, ds⟩
    · exact absurd hd h1.2.1
    · have hvp : vp ∈ c.data := by
        rw [hd]
        exact List.mem_cons_self _ _
      exact Nat.le_trans (h1.2.2 vp hvp)
        (le_find_maximum_literal (List.mem_cons_self c rest) hvp)

theorem dpll_rec_complete (σ : Nat → Nat) (A : Nat → Bool) (cs : List Clause)
    (hwf : wf_cnf cs) (hfl : flags_false cs) (hcs : cs ≠ [])
    (hA : cnf_sat_b A cs = true) :
    ∀ (fuel : Nat) (asn : Assign) (k : Nat),
      asn.map Prod.fst = List.range' 1 (find_maximum_literal cs) →
      agrees A asn →
      none_count asn < fuel →
      (dpll_rec σ fuel cs asn k).1 ≠ [] := by
  intro fuel
  induction fuel with
  | zero =>
    intro asn k hkeys hag hfuel
    exact absurd hfuel (Nat.not_lt_zero _)
  | succ fuel ih =>
    intro asn k hkeys hag hfuel
    have hm1 : 1 ≤ find_maximum_literal cs := one_le_find_maximum_literal hwf hcs
    have hasn_ne : asn ≠ [] := by
      intro hc
      rw [hc] at hkeys
      have hlen : (List.range' 1 (find_maximum_literal cs)).length = 0 := by
        rw [← hkeys]
        rfl
      rw [List.length_range'] at hlen
      omega
    have hasn_emp : asn.isEmpty = false := by
      cases asn
      · exact absurd rfl hasn_ne
      · rfl
    have hcs' : ¬cs.isEmpty = true := by
      cases cs
      · exact absurd rfl hcs
      · exact fun hc => Bool.noConfusion hc
    have hinit : (if asn.isEmpty then all_undecided cs else asn) = asn := by
      rw [hasn_emp]
      rfl
    cases ho : dpll_pure_outcome cs asn false
    · -- scan reports UNSAT: contradicts the satisfying assignment A
      exfalso
      obtain ⟨c, hc, hcv⟩ := (dpll_pure_outcome_eq_unsat cs asn false).mp ho
      have hA' : ∀ c ∈ cs, clause_sat_b A c = true := List.all_eq_true.mp hA
      have hsat := hA' c hc
      rw [agrees_unsat hcv hag] at hsat
      exact Bool.noConfusion hsat
    · -- scan reports all-SAT: the engine returns asn, which is non-empty
      have hrec : dpll_rec σ (fuel + 1) cs asn k = (asn, cs, asn, k) := by
        rw [dpll_rec_succ, if_neg hcs',
          dpll_rec_eval_noop cs cs (if asn.isEmpty then all_undecided cs else asn)
            false hfl, hinit, ho]
      rw [hrec]
      exact hasn_ne
    · -- scan reports UNDECIDED: a decision exists and one branch succeeds
      rcases dpll_pure_outcome_undecided_exists cs asn false ho with hb | ⟨c, hc, hcv⟩
      · exact absurd hb (by decide)
      obtain ⟨vp, hvp, hvnone⟩ := clause_value_UNDECIDED_has_none c asn hcv
      have hv1 : 1 ≤ vp.1 := (hwf c hc).2.2 vp hvp
      have hv2 : vp.1 ≤ find_maximum_literal cs := le_find_maximum_literal hc hvp
      have hvkeys : vp.1 ∈ asn.map Prod.fst := by
        rw [hkeys]
        exact List.mem_range'_1.mpr ⟨hv1, by omega⟩
      have hvmem : (vp.1, (none : Option Bool)) ∈ asn := by
        have hm := assign_get_mem hvkeys
        rw [hvnone] at hm
        exact hm
      cases hxi : decide_literal (σ k) asn with
      | none =>
        exfalso
        exact (decide_literal_none_iff (σ k) asn).mp hxi _ hvmem rfl
      | some xi =>
        have hximem : (xi, (none : Option Bool)) ∈ asn := decide_literal_some_mem hxi
        have hxikeys : xi ∈ asn.map Prod.fst := by
          have := List.mem_map_of_mem Prod.fst hximem
          exact this
        have hxi1 : 1 ≤ xi := by
          rw [hkeys] at hxikeys
          exact (List.mem_range'_1.mp hxikeys).1
        have hx0 : ¬xi = 0 := by omega
        have hbody := dpll_rec_succ_undec σ fuel cs asn k hcs' hfl
          (by rw [hinit]; exact ho)
        rw [hinit, hxi] at hbody
        have hbody2 : dpll_rec σ (fuel + 1) cs asn k =
            (if xi = 0 then ([], cs, asn, k + 1)
             else
               match dpll_rec σ fuel cs (assign_set asn xi (some true)) (k + 1) with
               | (r1, cs2, asn3, k1) =>
                 if !r1.isEmpty then (r1, cs2, asn3, k1)
                 else
                   match dpll_rec σ fuel cs2 (assign_set asn3 xi (some false)) k1 with
                   | (r2, cs3, asn5, k2) =>
                     if !r2.isEmpty then (r2, cs3, asn5, k2)
                     else ([], cs3, assign_set asn5 xi none, k2)) := hbody
        rw [if_neg hx0] at hbody2
        rcases h1 : dpll_rec σ fuel cs (assign_set asn xi (some true)) (k + 1)
          with ⟨r1, cs2, asn3, k1⟩
        rw [h1] at hbody2
        have hspec1 := dpll_rec_spec σ fuel cs (assign_set asn xi (some true)) (k + 1)
          hfl (by rw [keys_assign_set, hkeys]; exact List.nodup_range' _ _)
        rw [h1] at hspec1
        simp only at hspec1
        have hcs2 : cs2 = cs := hspec1.1
        by_cases hr1 : r1 = []
        · -- the xi := 1 branch failed, so A xi = 0 and the xi := 0 branch succeeds
          subst hr1
          have hAxi : A xi = false := by
            cases hAv : A xi
            · rfl
            · exfalso
              have hih := ih (assign_set asn xi (some true)) (k + 1)
                (by rw [keys_assign_set]; exact hkeys)
                (agrees_assign_set hag hAv)
                (by
                  have h4 := none_count_set_lt true hximem
                  omega)
              rw [h1] at hih
              exact hih rfl
          have hasn3 : asn3 = assign_set asn xi (some true) := by
            have h3 := hspec1.2.1 rfl
            rw [h3, assign_set_isEmpty, hasn_emp]
            rfl
          have hbody3 : dpll_rec σ (fuel + 1) cs asn k =
              (match dpll_rec σ fuel cs2 (assign_set asn3 xi (some false)) k1 with
               | (r2, cs3, asn5, k2) =>
                 if !r2.isEmpty then (r2, cs3, asn5, k2)
                 else ([], cs3, assign_set asn5 xi none, k2)) := hbody2
          rcases h2 : dpll_rec σ fuel cs2 (assign_set asn3 xi (some false)) k1
            with ⟨r2, cs3, asn5, k2⟩
          rw [h2] at hbody3
          have hr2ne : r2 ≠ [] := by
            have hih := ih (assign_set asn3 xi (some false)) k1
              (by rw [keys_assign_set, hasn3, keys_assign_set]; exact hkeys)
              (by
                rw [hasn3, assign_set_set]
                exact agrees_assign_set hag hAxi)
              (by
                rw [hasn3, assign_set_set]
                have h4 := none_count_set_lt false hximem
                omega)
            rw [hcs2] at h2
            rw [h2] at hih
            exact hih
          have hr2t : r2.isEmpty = false := by
            cases r2
            · exact absurd rfl hr2ne
            · rfl
          have hbody4 : dpll_rec σ (fuel + 1) cs asn k =
              (if !r2.isEmpty then (r2, cs3, asn5, k2)
               else ([], cs3, assign_set asn5 xi none, k2)) := hbody3
          rw [hr2t] at hbody4
          have hfin : dpll_rec σ (fuel + 1) cs asn k = (r2, cs3, asn5, k2) := hbody4
          rw [hfin]
          exact hr2ne
        · -- the xi := 1 branch already succeeded
          have hr1t : r1.isEmpty = false := by
            cases r1
            · exact absurd rfl hr1
            · rfl
          have hbody3 : dpll_rec σ (fuel + 1) cs asn k =
              (if !r1.isEmpty then (r1, cs2, asn3, k1)
               else
                 match dpll_rec σ fuel cs2 (assign_set asn3 xi (some false)) k1 with
                 | (r2, cs3, asn5, k2) =>
                   if !r2.isEmpty then (r2, cs3, asn5, k2)
                   else ([], cs3, assign_set asn5 xi none, k2)) := hbody2
          rw [hr1t] at hbody3
          have hfin : dpll_rec σ (fuel + 1) cs asn k = (r1, cs2, asn3, k1) := hbody3
          rw [hfin]
          exact hr1

theorem dpll_rec_entry_sat_iff (σ : Nat → Nat) (fuel : Nat) (cs : List Clause)
    (hwf : wf_cnf cs) (hfl : flags_false cs) (hcs : cs ≠ [])
    (hfuel : find_maximum_literal cs < fuel) :
    dpll_rec_entry σ fuel cs ≠ [] ↔ ∃ A, cnf_sat_b A cs = true := by
  constructor
  · intro hne
    have hs := dpll_rec_spec σ fuel cs [] 0 hfl (by simp)
    obtain ⟨-, hsat⟩ := hs.2.2 hne
    refine ⟨fun v => (assign_get (dpll_rec_entry σ fuel cs) v).getD false, ?_⟩
    exact List.all_eq_true.mpr fun c hc =>
      agrees_sat (hsat c hc) (agrees_completion _)
  · rintro ⟨A, hA⟩
    show (dpll_rec σ fuel cs [] 0).1 ≠ []
    rw [dpll_rec_nil_eq]
    have hcs_emp : cs.isEmpty = false := by
      cases cs
      · exact absurd rfl hcs
      · rfl
    apply dpll_rec_complete σ A cs hwf hfl hcs hA fuel (all_undecided cs) 0
    · exact all_undecided_keys cs hcs_emp
    · exact agrees_all_undecided A cs
    · rw [none_count_all_undecided cs hcs_emp]
      exact hfuel

theorem dpll_iter_scan_unsat : ∀ (cs : List Clause) (asn : Assign) (acc : Bool),
    (dpll_iter_scan cs asn acc).1 = true →
    ∃ c ∈ cs, clause_value c asn = UNSAT := by
  intro cs
  induction cs with
  | nil =>
    intro asn acc h
    have h2 : (false : Bool) = true := h
    exact absurd h2 (by decide)
  | cons c0 rest ih =>
    intro asn acc h
    rw [dpll_iter_scan_cons] at h
    cases hv : clause_value c0 asn <;> rw [hv] at h
    · -- SAT head
      obtain ⟨c, hc, hcv⟩ := ih asn acc h
      exact ⟨c, List.mem_cons_of_mem c0 hc, hcv⟩
    · exact ⟨c0, List.mem_cons_self c0 rest, hv⟩
    · obtain ⟨c, hc, hcv⟩ := ih asn true h
      exact ⟨c, List.mem_cons_of_mem c0 hc, hcv⟩

theorem dpll_iter_scan_undecided : ∀ (cs : List Clause) (asn : Assign),
    dpll_iter_scan cs asn false = (false, true) →
    ∃ c ∈ cs, clause_value c asn = UNDECIDED := by
  intro cs
  induction cs with
  | nil =>
    intro asn h
    have h2 : ((false, false) : Bool × Bool) = (false, true) := h
    have h3 : (false : Bool) = true := congrArg Prod.snd h2
    exact absurd h3 (by decide)
  | cons c0 rest ih =>
    intro asn h
    rw [dpll_iter_scan_cons] at h
    cases hv : clause_value c0 asn <;> rw [hv] at h
    · -- SAT head
      obtain ⟨c, hc, hcv⟩ := ih asn h
      exact ⟨c, List.mem_cons_of_mem c0 hc, hcv⟩
    · -- UNSAT head
      have h2 : ((true, false) : Bool × Bool) = (false, true) := h
      have h3 : (true : Bool) = false := congrArg Prod.fst h2
      exact absurd h3 (by decide)
    · exact ⟨c0, List.mem_cons_self c0 rest, hv⟩

theorem dpll_iterative_go_complete (σ : Nat → Nat) (A : Nat → Bool)
    (cs : List Clause) (hwf : wf_cnf cs) (hcs : cs ≠ [])
    (hA : cnf_sat_b A cs = true) :
    ∀ (fuel : Nat) (stack : List Assign) (k : Nat),
      (∀ item ∈ stack, item.map Prod.fst = List.range' 1 (find_maximum_literal cs)) →
      (∃ item ∈ stack, agrees A item) →
      stack_measure stack ≤ fuel →
      dpll_iterative_go σ fuel cs stack k ≠ [] := by
  intro fuel
  induction fuel with
  | zero =>
    intro stack k hkeys hex hfuel
    exfalso
    obtain ⟨item, hitem, -⟩ := hex
    cases stack with
    | nil => simp at hitem
    | cons cur rest =>
      have hpos : 0 < 3 ^ none_count cur := pow_pos (by decide) _
      have hm : stack_measure (cur :: rest) =
          3 ^ none_count cur + stack_measure rest := by
        show (List.map (fun a => 3 ^ none_count a) (cur :: rest)).sum = _
        rw [List.map_cons, List.sum_cons]
        rfl
      omega
  | succ fuel ih =>
    intro stack k hkeys hex hfuel
    cases stack with
    | nil =>
      obtain ⟨item, hitem, -⟩ := hex
      simp at hitem
    | cons cur rest =>
      have hmcons : stack_measure (cur :: rest) =
          3 ^ none_count cur + stack_measure rest := by
        show (List.map (fun a => 3 ^ none_count a) (cur :: rest)).sum = _
        rw [List.map_cons, List.sum_cons]
        rfl
      have hposc : 0 < 3 ^ none_count cur := pow_pos (by decide) _
      rcases hsc : dpll_iter_scan cs cur false with ⟨b1, b2⟩
      cases b1
      · cases b2
        · -- every clause SAT: the engine returns cur, which is non-empty
          have hval : dpll_iterative_go σ (fuel + 1) cs (cur :: rest) k = cur := by
            rw [dpll_iterative_go_cons, hsc]
          rw [hval]
          intro hc
          have hk := hkeys cur (List.mem_cons_self cur rest)
          rw [hc] at hk
          have hm1 : 1 ≤ find_maximum_literal cs := one_le_find_maximum_literal hwf hcs
          have hlen : (List.range' 1 (find_maximum_literal cs)).length = 0 := by
            rw [← hk]
            rfl
          rw [List.length_range'] at hlen
          omega
        · -- some clause undecided: a fresh decision exists and is pushed
          have hval0 : dpll_iterative_go σ (fuel + 1) cs (cur :: rest) k =
              (match decide_literal (σ k) cur with
               | none => ([] : Assign)
               | some xi =>
                 if xi = 0 then []
                 else
                   dpll_iterative_go σ fuel cs
                     (assign_set cur xi (some false) ::
                       assign_set cur xi (some true) :: rest) (k + 1)) := by
            rw [dpll_iterative_go_cons, hsc]
          obtain ⟨c, hc, hcv⟩ := dpll_iter_scan_undecided cs cur hsc
          obtain ⟨vp, hvp, hvnone⟩ := clause_value_UNDECIDED_has_none c cur hcv
          have hkc := hkeys cur (List.mem_cons_self cur rest)
          have hv1 : 1 ≤ vp.1 := (hwf c hc).2.2 vp hvp
          have hv2 : vp.1 ≤ find_maximum_literal cs := le_find_maximum_literal hc hvp
          have hvkeys : vp.1 ∈ cur.map Prod.fst := by
            rw [hkc]
            exact List.mem_range'_1.mpr ⟨hv1, by omega⟩
          have hvmem : (vp.1, (none : Option Bool)) ∈ cur := by
            have hm := assign_get_mem hvkeys
            rw [hvnone] at hm
            exact hm
          cases hxi : decide_literal (σ k) cur with
          | none =>
            exact absurd rfl ((decide_literal_none_iff (σ k) cur).mp hxi _ hvmem)
          | some xi =>
            have hximem : (xi, (none : Option Bool)) ∈ cur :=
              decide_literal_some_mem hxi
            have hxikeys : xi ∈ cur.map Prod.fst :=
              List.mem_map_of_mem Prod.fst hximem
            have hxi1 : 1 ≤ xi := by
              rw [hkc] at hxikeys
              exact (List.mem_range'_1.mp hxikeys).1
            have hx0 : ¬xi = 0 := by omega
            rw [hxi] at hval0
            have hval1 : dpll_iterative_go σ (fuel + 1) cs (cur :: rest) k =
                (if xi = 0 then []
                 else
                   dpll_iterative_go σ fuel cs
                     (assign_set cur xi (some false) ::
                       assign_set cur xi (some true) :: rest) (k + 1)) := hval0
            rw [if_neg hx0] at hval1
            rw [hval1]
            apply ih (assign_set cur xi (some false) ::
              assign_set cur xi (some true) :: rest) (k + 1)
            · intro item hitem
              rcases List.mem_cons.mp hitem with h3 | h3
              · rw [h3, keys_assign_set]
                exact hkc
              · rcases List.mem_cons.mp h3 with h4 | h4
                · rw [h4, keys_assign_set]
                  exact hkc
                · exact hkeys item (List.mem_cons_of_mem cur h4)
            · obtain ⟨item, hitem, hagr⟩ := hex
              rcases List.mem_cons.mp hitem with h3 | h3
              · rw [h3] at hagr
                cases hAv : A xi
                · exact ⟨assign_set cur xi (some false),
                    List.mem_cons_self _ _, agrees_assign_set hagr hAv⟩
                · exact ⟨assign_set cur xi (some true),
                    List.mem_cons_of_mem _ (List.mem_cons_self _ _),
                    agrees_assign_set hagr hAv⟩
              · exact ⟨item, List.mem_cons_of_mem _ (List.mem_cons_of_mem _ h3), hagr⟩
            · have hnc1 : 1 ≤ none_count cur := by
                have hmf : (xi, (none : Option Bool)) ∈
                    cur.filter (fun e => e.2 == none) :=
                  List.mem_filter.mpr ⟨hximem, rfl⟩
                exact List.length_pos.mpr (List.ne_nil_of_mem hmf)
              have hltF := none_count_set_lt false hximem
              have hltT := none_count_set_lt true hximem
              have hF : 3 ^ none_count (assign_set cur xi (some false)) ≤
                  3 ^ (none_count cur - 1) :=
                Nat.pow_le_pow_right (by decide) (by omega)
              have hT : 3 ^ none_count (assign_set cur xi (some true)) ≤
                  3 ^ (none_count cur - 1) :=
                Nat.pow_le_pow_right (by decide) (by omega)
              have h3eq : 3 ^ none_count cur = 3 ^ (none_count cur - 1) * 3 := by
                rw [← pow_succ]
                congr 1
                omega
              have hposm : 0 < 3 ^ (none_count cur - 1) := pow_pos (by decide) _
              have hm2 : stack_measure (assign_set cur xi (some false) ::
                  assign_set cur xi (some true) :: rest) =
                  3 ^ none_count (assign_set cur xi (some false)) +
                  (3 ^ none_count (assign_set cur xi (some true)) +
                    stack_measure rest) := by
                show (List.map (fun a => 3 ^ none_count a) _).sum = _
                rw [List.map_cons, List.sum_cons, List.map_cons, List.sum_cons]
                rfl
              omega
      · -- an UNSAT clause: pop; the satisfiable branch is not the popped one
        have hval : dpll_iterative_go σ (fuel + 1) cs (cur :: rest) k =
            dpll_iterative_go σ fuel cs rest k := by
          rw [dpll_iterative_go_cons, hsc]
        rw [hval]
        apply ih rest k
        · intro item hitem
          exact hkeys item (List.mem_cons_of_mem cur hitem)
        · obtain ⟨item, hitem, hagr⟩ := hex
          rcases List.mem_cons.mp hitem with h3 | h3
          · exfalso
            rw [h3] at hagr
            obtain ⟨c, hc, hcv⟩ := dpll_iter_scan_unsat cs cur false (by rw [hsc])
            have hA' : ∀ c ∈ cs, clause_sat_b A c = true := List.all_eq_true.mp hA
            have hsat := hA' c hc
            rw [agrees_unsat hcv hagr] at hsat
            exact Bool.noConfusion hsat
          · exact ⟨item, h3, hagr⟩
        · omega

theorem dpll_iterative_complete (σ : Nat → Nat) (A : Nat → Bool) (fuel : Nat)
    (cs : List Clause) (hwf : wf_cnf cs) (hcs : cs ≠ [])
    (hA : cnf_sat_b A cs = true)
    (hfuel : 3 ^ find_maximum_literal cs ≤ fuel) :
    dpll_iterative σ fuel cs ≠ [] := by
  have hcs_emp : cs.isEmpty = false := by
    cases cs
    · exact absurd rfl hcs
    · rfl
  have hm1 : 1 ≤ find_maximum_literal cs := one_le_find_maximum_literal hwf hcs
  have hkeys1 : (all_undecided cs).map Prod.fst =
      List.range' 1 (find_maximum_literal cs) := all_undecided_keys cs hcs_emp
  have h1mem : (1 : Nat) ∈ (all_undecided cs).map Prod.fst := by
    rw [hkeys1]
    exact List.mem_range'_1.mpr ⟨Nat.le_refl 1, by omega⟩
  have h1none : ((1 : Nat), (none : Option Bool)) ∈ all_undecided cs := by
    have hval : assign_get (all_undecided cs) 1 = none := by
      cases hg : assign_get (all_undecided cs) 1 with
      | none => rfl
      | some b =>
        have hcontr := agrees_all_undecided (fun _ => !b) cs 1 b hg
        exact absurd hcontr (by cases b <;> decide)
    have hm := assign_get_mem h1mem
    rw [hval] at hm
    exact hm
  rw [dpll_iterative_def, if_neg (by rw [hcs_emp]; exact fun hc => Bool.noConfusion hc)]
  cases hxi : decide_literal (σ 0) (all_undecided cs) with
  | none =>
    exact absurd rfl ((decide_literal_none_iff (σ 0) (all_undecided cs)).mp hxi _ h1none)
  | some xi =>
    have hximem := decide_literal_some_mem hxi
    have hxikeys : xi ∈ (all_undecided cs).map Prod.fst :=
      List.mem_map_of_mem Prod.fst hximem
    have hxi1 : 1 ≤ xi := by
      rw [hkeys1] at hxikeys
      exact (List.mem_range'_1.mp hxikeys).1
    have hx0 : ¬xi = 0 := by omega
    show (if xi = 0 then ([] : Assign)
          else
            dpll_iterative_go σ fuel cs
              [assign_set (all_undecided cs) xi (some false),
               assign_set (all_undecided cs) xi (some true)] 1) ≠ []
    rw [if_neg hx0]
    apply dpll_iterative_go_complete σ A cs hwf hcs hA fuel _ 1
    · intro item hitem
      rcases List.mem_cons.mp hitem with h3 | h3
      · rw [h3, keys_assign_set]
        exact hkeys1
      · rcases List.mem_cons.mp h3 with h4 | h4
        · rw [h4, keys_assign_set]
          exact hkeys1
        · simp at h4
    · cases hAv : A xi
      · exact ⟨assign_set (all_undecided cs) xi (some false),
          List.mem_cons_self _ _,
          agrees_assign_set (agrees_all_undecided A cs) hAv⟩
      · exact ⟨assign_set (all_undecided cs) xi (some true),
          List.mem_cons_of_mem _ (List.mem_cons_self _ _),
          agrees_assign_set (agrees_all_undecided A cs) hAv⟩
    · have hnc : none_count (all_undecided cs) = find_maximum_literal cs :=
        none_count_all_undecided cs hcs_emp
      have hltF := none_count_set_lt false hximem
      have hltT := none_count_set_lt true hximem
      have hF : 3 ^ none_count (assign_set (all_undecided cs) xi (some false)) ≤
          3 ^ (find_maximum_literal cs - 1) :=
        Nat.pow_le_pow_right (by decide) (by omega)
      have hT : 3 ^ none_count (assign_set (all_undecided cs) xi (some true)) ≤
          3 ^ (find_maximum_literal cs - 1) :=
        Nat.pow_le_pow_right (by decide) (by omega)
      have h3eq : 3 ^ find_maximum_literal cs =
          3 ^ (find_maximum_literal cs - 1) * 3 := by
        rw [← pow_succ]
        congr 1
        omega
      have hposm : 0 < 3 ^ (find_maximum_literal cs - 1) := pow_pos (by decide) _
      have hm2 : stack_measure [assign_set (all_undecided cs) xi (some false),
          assign_set (all_undecided cs) xi (some true)] =
          3 ^ none_count (assign_set (all_undecided cs) xi (some false)) +
          (3 ^ none_count (assign_set (all_undecided cs) xi (some true)) + 0) := by
        show (List.map (fun a => 3 ^ none_count a) _).sum = _
        rw [List.map_cons, List.sum_cons, List.map_cons, List.sum_cons]
        rfl
      omega

/-- **C4** For every well-formed CNF clause list (as produced by the
program's clause constructor: unique keys, no empty clause, variables at
least 1, `isUnit` flags clear) and regardless of the random choices made by
`decide_literal` in either engine, `dpll_rec` and `dpll_iterative` agree on
the SAT/UNSAT verdict (non-empty assignment versus empty dictionary), and
when SAT each produces an assignment under which every clause evaluates to
SAT (not necessarily the same one).  The fuel bounds make each engine run
to its natural termination. -/
theorem C4_engines_agree (σ1 σ2 : Nat → Nat) (fuel1 fuel2 : Nat) (cs : List Clause)
    (hwf : wf_cnf cs) (hfl : flags_false cs)
    (hfuel1 : find_maximum_literal cs < fuel1)
    (hfuel2 : 3 ^ find_maximum_literal cs ≤ fuel2) :
    (dpll_rec_entry σ1 fuel1 cs = [] ↔ dpll_iterative σ2 fuel2 cs = []) ∧
    (dpll_rec_entry σ1 fuel1 cs ≠ [] →
      ∀ c ∈ cs, clause_value c (dpll_rec_entry σ1 fuel1 cs) = SAT) ∧
    (dpll_iterative σ2 fuel2 cs ≠ [] →
      ∀ c ∈ cs, clause_value c (dpll_iterative σ2 fuel2 cs) = SAT) := by
  have hsound_rec : dpll_rec_entry σ1 fuel1 cs ≠ [] →
      ∀ c ∈ cs, clause_value c (dpll_rec_entry σ1 fuel1 cs) = SAT := by
    intro hne c hc
    exact ((dpll_rec_spec σ1 fuel1 cs [] 0 hfl (by simp)).2.2 hne).2 c hc
  refine ⟨?_, hsound_rec, dpll_iterative_sound σ2 fuel2 cs⟩
  by_cases hcs : cs = []
  · subst hcs
    have hrec0 : dpll_rec_entry σ1 fuel1 [] = [] := by
      cases fuel1 with
      | zero => rfl
      | succ f => rfl
    have hit0 : dpll_iterative σ2 fuel2 [] = [] := rfl
    rw [hrec0, hit0]
  · have hrec_iff := dpll_rec_entry_sat_iff σ1 fuel1 cs hwf hfl hcs hfuel1
    have hiter_iff : dpll_iterative σ2 fuel2 cs ≠ [] ↔
        ∃ A, cnf_sat_b A cs = true := by
      constructor
      · intro hne
        refine ⟨fun v => (assign_get (dpll_iterative σ2 fuel2 cs) v).getD false, ?_⟩
        exact List.all_eq_true.mpr fun c hc =>
          agrees_sat (dpll_iterative_sound σ2 fuel2 cs hne c hc) (agrees_completion _)
      · rintro ⟨A, hA⟩
        exact dpll_iterative_complete σ2 A fuel2 cs hwf hcs hA hfuel2
    exact not_iff_not.mp (hrec_iff.trans hiter_iff.symm)

theorem C4_witness :
    (wf_cnf [Clause.mk [(1, true)] false] ∧
     flags_false [Clause.mk [(1, true)] false] ∧
     find_maximum_literal [Clause.mk [(1, true)] false] < 2 ∧
     3 ^ find_maximum_literal [Clause.mk [(1, true)] false] ≤ 3) ∧
    ((dpll_rec_entry (fun _ => 0) 2 [Clause.mk [(1, true)] false] = [] ↔
        dpll_iterative (fun _ => 0) 3 [Clause.mk [(1, true)] false] = []) ∧
     (dpll_rec_entry (fun _ => 0) 2 [Clause.mk [(1, true)] false] ≠ [] →
        ∀ c ∈ [Clause.mk [(1, true)] false],
          clause_value c (dpll_rec_entry (fun _ => 0) 2 [Clause.mk [(1, true)] false]) =
            SAT) ∧
     (dpll_iterative (fun _ => 0) 3 [Clause.mk [(1, true)] false] ≠ [] →
        ∀ c ∈ [Clause.mk [(1, true)] false],
          clause_value c (dpll_iterative (fun _ => 0) 3 [Clause.mk [(1, true)] false]) =
            SAT)) :=
  ⟨⟨by decide, by decide, by decide, by decide⟩,
   C4_engines_agree (fun _ => 0) (fun _ => 0) 2 3 [Clause.mk [(1, true)] false]
     (by decide) (by decide) (by decide) (by decide)⟩

/-- **C1** The spec requires the XOR-based equivalence check to report UNSAT
(equivalent) exactly when the two functions have identical truth tables, and
in particular to report `"x1"` and `"x1 + x1.x2"` equivalent.  The code
diverges: `xor_CNF_functions` emits only the XOR-gate clauses, omitting both
functions' CNF clauses and any clause forcing the XOR output true, so the
combined formula is satisfiable regardless of the inputs, and
`boolean_functions_are_equivalent` returns a non-empty "counter-example"
assignment even for these two semantically equal functions. -/
theorem C1_equivalence_check_code_bug :
    (∃ a b, c1_left = some a ∧ c1_right = some b ∧
      ∀ A : Nat → Bool, sop_sat_b A a.sop_clauses = sop_sat_b A b.sop_clauses) ∧
    c1_check = some (Sum.inr [(1, some false), (2, some false), (3, some false),
      (4, some false), (5, some false), (6, some false), (7, some false),
      (8, some false), (9, some false)]) ∧
    ([(1, some false), (2, some false), (3, some false), (4, some false),
      (5, some false), (6, some false), (7, some false), (8, some false),
      (9, some false)] : Assign) ≠ [] := by
  refine ⟨⟨_, _, rfl, rfl, ?_⟩, rfl, by simp⟩
  intro A
  show sop_sat_b A [Clause.mk [(1, true)] false] =
    sop_sat_b A [Clause.mk [(1, true)] false, Clause.mk [(1, true), (2, true)] false]
  cases hA1 : A 1 <;> simp [sop_sat_b, term_sat_b, hA1]
